import Mathlib

/-!
# TrackGit: the status report of `GitCommand/Status.cpp`

A shallow embedding of `GetStatusTextUtil`, `GetBranchText` and the tail of
`GetStatusText`, followed by the properties of the status report.

* A `BString` is a Lean `String`; `Append` is `++` and `ReplaceFirst` is the
  substitution of the first occurrence over the whole buffer.
* A `const char*` that may be `NULL` is an `Option String`.
* A pointer to a delta that may be `NULL` is an `Option git_diff_delta`;
  dereferencing `NULL` makes the whole function return `none`.
* The four `for` loops are one recursion each over the entry list, passing the
  buffer and the `header` flag along.
-/

namespace TrackGit

/-! ## libgit2 types used by the source -/

/-- Value of `GIT_STATUS_CURRENT` in libgit2's `git_status_t`. -/
def GIT_STATUS_CURRENT : Nat := 0
/-- Value of `GIT_STATUS_INDEX_NEW`, `1u << 0`. -/
def GIT_STATUS_INDEX_NEW : Nat := 1
/-- Value of `GIT_STATUS_INDEX_MODIFIED`, `1u << 1`. -/
def GIT_STATUS_INDEX_MODIFIED : Nat := 2
/-- Value of `GIT_STATUS_INDEX_DELETED`, `1u << 2`. -/
def GIT_STATUS_INDEX_DELETED : Nat := 4
/-- Value of `GIT_STATUS_INDEX_RENAMED`, `1u << 3`. -/
def GIT_STATUS_INDEX_RENAMED : Nat := 8
/-- Value of `GIT_STATUS_INDEX_TYPECHANGE`, `1u << 4`. -/
def GIT_STATUS_INDEX_TYPECHANGE : Nat := 16
/-- Value of `GIT_STATUS_WT_NEW`, `1u << 7`. -/
def GIT_STATUS_WT_NEW : Nat := 128
/-- Value of `GIT_STATUS_WT_MODIFIED`, `1u << 8`. -/
def GIT_STATUS_WT_MODIFIED : Nat := 256
/-- Value of `GIT_STATUS_WT_DELETED`, `1u << 9`. -/
def GIT_STATUS_WT_DELETED : Nat := 512
/-- Value of `GIT_STATUS_WT_TYPECHANGE`, `1u << 10`. -/
def GIT_STATUS_WT_TYPECHANGE : Nat := 1024
/-- Value of `GIT_STATUS_WT_RENAMED`, `1u << 11`. -/
def GIT_STATUS_WT_RENAMED : Nat := 2048
/-- Value of `GIT_STATUS_IGNORED`, `1u << 14`. -/
def GIT_STATUS_IGNORED : Nat := 16384

/-- The `git_diff_file` of libgit2, reduced to the field the source reads:
`path`, a `const char*` that may be `NULL`. -/
structure git_diff_file where
  path : Option String
  deriving DecidableEq, Repr

/-- The `git_diff_delta` of libgit2, reduced to `old_file` and `new_file`. -/
structure git_diff_delta where
  old_file : git_diff_file
  new_file : git_diff_file
  deriving DecidableEq, Repr

/-- The `git_status_entry` of libgit2: the status bit mask and the two delta
pointers, either of which may be `NULL`. -/
structure git_status_entry where
  status : Nat
  head_to_index : Option git_diff_delta
  index_to_workdir : Option git_diff_delta
  deriving DecidableEq, Repr

/-! ## The `BString` operations used by the source -/

/-- First-occurrence substitution on character lists: scan from the left, and
at the first position where `replaceThis` starts, put `withThis` in its place. -/
def replaceFirstChars (replaceThis withThis : List Char) : List Char → List Char
  | [] => []
  | c :: cs =>
    if replaceThis.isPrefixOf (c :: cs) then
      withThis ++ (c :: cs).drop replaceThis.length
    else c :: replaceFirstChars replaceThis withThis cs

/-- The call `BString::ReplaceFirst(replaceThis, withThis)` of the Haiku support
kit, over the whole buffer: the first occurrence of `replaceThis` is replaced by
`withThis`; the buffer is returned unchanged when `replaceThis` does not occur
or when `withThis` is `NULL`. -/
def ReplaceFirst (s : String) (replaceThis : String) : Option String → String
  | none => s
  | some withThis => ⟨replaceFirstChars replaceThis.data withThis.data s.data⟩

/-- One appended template line with the `ReplaceFirst` calls that follow it,
in source order. -/
structure Emit where
  template : String
  replacements : List (String × Option String)
  deriving DecidableEq, Repr

/-- Run `statusText->Append(template)` and then each
`statusText->ReplaceFirst(..)` on the whole buffer. -/
def Emit.run (statusText : String) (e : Emit) : String :=
  e.replacements.foldl (fun t r => ReplaceFirst t r.1 r.2) (statusText ++ e.template)

/-! ## The loop bodies of `GetStatusTextUtil` -/

/-- What one loop iteration does: `continue`, dereference a `NULL` delta, or
append one line. -/
inductive Step where
  | skip
  | null_deref
  | line (e : Emit)
  deriving DecidableEq, Repr

/-- The line of a step, when it appends one. -/
def Step.line? : Step → Option Emit
  | .line e => some e
  | _ => none

/-- Lines 44-53: the cascade of `if`s over the index bits; each test that
succeeds overwrites `istatus`. -/
def istatus (status : Nat) : Option String :=
  let istatus : Option String := none
  let istatus := if status &&& GIT_STATUS_INDEX_NEW ≠ 0 then some "new file: " else istatus
  let istatus := if status &&& GIT_STATUS_INDEX_MODIFIED ≠ 0 then some "modified: " else istatus
  let istatus := if status &&& GIT_STATUS_INDEX_DELETED ≠ 0 then some "deleted:  " else istatus
  let istatus := if status &&& GIT_STATUS_INDEX_RENAMED ≠ 0 then some "renamed:  " else istatus
  let istatus := if status &&& GIT_STATUS_INDEX_TYPECHANGE ≠ 0 then some "typechange:" else istatus
  istatus

/-- Lines 100-107: the cascade of `if`s over the workdir bits. -/
def wstatus (status : Nat) : Option String :=
  let wstatus : Option String := none
  let wstatus := if status &&& GIT_STATUS_WT_MODIFIED ≠ 0 then some "modified: " else wstatus
  let wstatus := if status &&& GIT_STATUS_WT_DELETED ≠ 0 then some "deleted:  " else wstatus
  let wstatus := if status &&& GIT_STATUS_WT_RENAMED ≠ 0 then some "renamed:  " else wstatus
  let wstatus := if status &&& GIT_STATUS_WT_TYPECHANGE ≠ 0 then some "typechange:" else wstatus
  wstatus

/-- The test `old_path && new_path && strcmp(old_path, new_path)`. -/
def isRename (old_path new_path : Option String) : Bool :=
  match old_path, new_path with
  | some o, some n => o != n
  | _, _ => false

/-- Lines 64-76 and 118-130: the labelled line of a delta. `placeholder` is
`%istatus` in the first loop and `%wstatus` in the second. -/
def labelledLine (placeholder label : String) (d : git_diff_delta) : Emit :=
  let old_path := d.old_file.path
  let new_path := d.new_file.path
  if isRename old_path new_path then
    { template := "\t" ++ placeholder ++ " %old -> %new\n"
      replacements := [(placeholder, some label), ("%old", old_path), ("%new", new_path)] }
  else
    { template := "\t" ++ placeholder ++ " %file\n"
      replacements :=
        [(placeholder, some label), ("%file", if old_path.isSome then old_path else new_path)] }

/-- Lines 151-152 and 172-173: the line of an untracked or ignored entry,
which holds `index_to_workdir->old_file.path` only. -/
def pathLine (d : git_diff_delta) : Emit :=
  { template := "\t%file\n", replacements := [("%file", d.old_file.path)] }

/-- Body of the first loop (lines 36-76). -/
def stagedBody (s : git_status_entry) : Step :=
  if s.status = GIT_STATUS_CURRENT then .skip
  else
    match istatus s.status with
    | none => .skip
    | some l =>
      match s.head_to_index with
      | none => .null_deref
      | some d => .line (labelledLine "%istatus" l d)

/-- Body of the second loop (lines 87-130). -/
def unstagedBody (s : git_status_entry) : Step :=
  if s.status = GIT_STATUS_CURRENT ∨ s.index_to_workdir = none then .skip
  else
    match wstatus s.status with
    | none => .skip
    | some l =>
      match s.index_to_workdir with
      | none => .null_deref
      | some d => .line (labelledLine "%wstatus" l d)

/-- Body of the third loop (lines 141-154). -/
def untrackedBody (s : git_status_entry) : Step :=
  if s.status = GIT_STATUS_WT_NEW then
    match s.index_to_workdir with
    | none => .null_deref
    | some d => .line (pathLine d)
  else .skip

/-- Body of the fourth loop (lines 162-174). -/
def ignoredBody (s : git_status_entry) : Step :=
  if s.status = GIT_STATUS_IGNORED then
    match s.index_to_workdir with
    | none => .null_deref
    | some d => .line (pathLine d)
  else .skip

/-- The buffer and the `header` flag while a loop runs. -/
structure PassState where
  statusText : String
  header : Bool
  deriving DecidableEq, Repr

/-- One `for` loop of `GetStatusTextUtil`: the first entry that yields a line
also appends the blank line and the section title. -/
def runPass (title : String) (body : git_status_entry → Step) :
    List git_status_entry → PassState → Option PassState
  | [], st => some st
  | s :: rest, st =>
    match body s with
    | .skip => runPass title body rest st
    | .null_deref => none
    | .line e =>
      let statusText := if st.header then st.statusText else st.statusText ++ "\n" ++ title
      runPass title body rest { statusText := e.run statusText, header := true }

/-- The buffer after the four loops, with the flags `changesInIndex` and
`changesInWorkDir` (lines 25-175). -/
def fourPasses (status : List git_status_entry) : Option (String × Bool × Bool) :=
  match runPass "Changes to be committed:\n" stagedBody status ⟨"", false⟩ with
  | none => none
  | some st1 =>
    let changesInIndex := st1.header
    match runPass "Changes not staged for commit:\n" unstagedBody status ⟨st1.statusText, false⟩ with
    | none => none
    | some st2 =>
      let changesInWorkDir := st2.header
      match runPass "Untracked files:\n" untrackedBody status ⟨st2.statusText, false⟩ with
      | none => none
      | some st3 =>
        match runPass "Ignored files:\n" ignoredBody status ⟨st3.statusText, false⟩ with
        | none => none
        | some st4 => some (st4.statusText, changesInIndex, changesInWorkDir)

/-- The function `GetStatusTextUtil` (lines 22-181). The variable `rmInWorkDir`
is written and never read, so it is left out. -/
def GetStatusTextUtil (status : List git_status_entry) : Option String :=
  match fourPasses status with
  | none => none
  | some (statusText, changesInIndex, changesInWorkDir) =>
    if !changesInIndex && changesInWorkDir then
      some (statusText ++ "\nNo changes added to commit\n")
    else some statusText

/-- Lines 205-207 of `GetBranchText`: `branch` is the short name of `HEAD`, or
`NULL` when it could not be resolved. -/
def GetBranchText (branch : Option String) : String :=
  "Branch: " ++ (match branch with
    | some b => b
    | none => "No Branch info") ++ "\n"

/-- Lines 266-271 of `GetStatusText`: the branch text followed by the status
text. -/
def GetStatusText (branch : Option String) (status : List git_status_entry) : Option String :=
  match GetStatusTextUtil status with
  | none => none
  | some statusText => some (GetBranchText branch ++ statusText)

/-! ## The change records of the specification -/

/-- A set of change flags. -/
structure FlagSet where
  NEW : Bool
  MODIFIED : Bool
  DELETED : Bool
  RENAMED : Bool
  TYPECHANGE : Bool
  deriving DecidableEq, Repr

/-- The empty flag set. -/
def FlagSet.empty : FlagSet := ⟨false, false, false, false, false⟩

/-- A change record: index-side flags, workdir-side flags, the ignored mark
and the two optional delta pairs. An absent (empty) path is `none`. -/
structure ChangeRecord where
  indexFlags : FlagSet
  workdirFlags : FlagSet
  ignored : Bool
  headToIndex : Option git_diff_delta
  indexToWorkdir : Option git_diff_delta
  deriving DecidableEq, Repr

/-- The bit of a flag. -/
def bit (b : Bool) (mask : Nat) : Nat := if b then mask else 0

/-- The `git_status_t` mask of the flags of a change record. -/
def statusMask (indexFlags workdirFlags : FlagSet) (ignored : Bool) : Nat :=
  bit indexFlags.NEW GIT_STATUS_INDEX_NEW
  ||| bit indexFlags.MODIFIED GIT_STATUS_INDEX_MODIFIED
  ||| bit indexFlags.DELETED GIT_STATUS_INDEX_DELETED
  ||| bit indexFlags.RENAMED GIT_STATUS_INDEX_RENAMED
  ||| bit indexFlags.TYPECHANGE GIT_STATUS_INDEX_TYPECHANGE
  ||| bit workdirFlags.NEW GIT_STATUS_WT_NEW
  ||| bit workdirFlags.MODIFIED GIT_STATUS_WT_MODIFIED
  ||| bit workdirFlags.DELETED GIT_STATUS_WT_DELETED
  ||| bit workdirFlags.RENAMED GIT_STATUS_WT_RENAMED
  ||| bit workdirFlags.TYPECHANGE GIT_STATUS_WT_TYPECHANGE
  ||| bit ignored GIT_STATUS_IGNORED

/-- The `git_status_t` mask of a change record. -/
def ChangeRecord.status (r : ChangeRecord) : Nat :=
  statusMask r.indexFlags r.workdirFlags r.ignored

/-- The status entry of a change record. -/
def ChangeRecord.toEntry (r : ChangeRecord) : git_status_entry :=
  { status := r.status, head_to_index := r.headToIndex, index_to_workdir := r.indexToWorkdir }

/-- The delta pair `(oldPath, newPath)`. -/
def delta (oldPath newPath : Option String) : git_diff_delta := ⟨⟨oldPath⟩, ⟨newPath⟩⟩

/-- The entries of a list of change records. -/
def entries (records : List ChangeRecord) : List git_status_entry :=
  records.map ChangeRecord.toEntry

/-- A record with no flag that is not ignored: the status `GIT_STATUS_CURRENT`. -/
def ChangeRecord.isCurrent (r : ChangeRecord) : Bool :=
  decide (r.indexFlags = FlagSet.empty ∧ r.workdirFlags = FlagSet.empty ∧ r.ignored = false)

/-! ## Labels and priority orders -/

/-- The five change flags. -/
inductive Flag where
  | NEW
  | MODIFIED
  | DELETED
  | RENAMED
  | TYPECHANGE
  deriving DecidableEq, Repr

/-- Membership of a flag in a flag set. -/
def FlagSet.has (f : FlagSet) : Flag → Bool
  | .NEW => f.NEW
  | .MODIFIED => f.MODIFIED
  | .DELETED => f.DELETED
  | .RENAMED => f.RENAMED
  | .TYPECHANGE => f.TYPECHANGE

/-- The label text the source assigns for a flag (lines 45-53 and 101-107):
the name, a colon, and padding to a common width. -/
def Flag.text : Flag → String
  | .NEW => "new file: "
  | .MODIFIED => "modified: "
  | .DELETED => "deleted:  "
  | .RENAMED => "renamed:  "
  | .TYPECHANGE => "typechange:"

/-- The label of a flag as the specification names it. -/
def Flag.label : Flag → String
  | .NEW => "new file"
  | .MODIFIED => "modified"
  | .DELETED => "deleted"
  | .RENAMED => "renamed"
  | .TYPECHANGE => "typechange"

/-- The order in which the first loop tests the index bits. -/
def indexOrder : List Flag := [.NEW, .MODIFIED, .DELETED, .RENAMED, .TYPECHANGE]

/-- The order in which the second loop tests the workdir bits. -/
def workdirOrder : List Flag := [.MODIFIED, .DELETED, .RENAMED, .TYPECHANGE]

/-- The first flag of `order` that the set holds. -/
def firstPresent (order : List Flag) (f : FlagSet) : Option Flag :=
  order.find? f.has

/-- The last flag of `order` that the set holds. -/
def lastPresent (order : List Flag) (f : FlagSet) : Option Flag :=
  order.reverse.find? f.has

/-! ## Sections as lists of lines -/

/-- The lines a loop with body `body` appends, in the order of the entries. -/
def sectionLines (body : git_status_entry → Step) (status : List git_status_entry) : List Emit :=
  status.filterMap (fun s => (body s).line?)

/-- The lines of the section "Changes to be committed". -/
def stagedLines (status : List git_status_entry) : List Emit := sectionLines stagedBody status

/-- The lines of the section "Changes not staged for commit". -/
def unstagedLines (status : List git_status_entry) : List Emit := sectionLines unstagedBody status

/-- The lines of the section "Untracked files". -/
def untrackedLines (status : List git_status_entry) : List Emit := sectionLines untrackedBody status

/-- The lines of the section "Ignored files". -/
def ignoredLines (status : List git_status_entry) : List Emit := sectionLines ignoredBody status

/-- Some loop dereferences a `NULL` delta at this entry. -/
def nullDeref (s : git_status_entry) : Bool :=
  decide (stagedBody s = .null_deref) || decide (unstagedBody s = .null_deref)
    || decide (untrackedBody s = .null_deref) || decide (ignoredBody s = .null_deref)

/-- Append one line to a section in place, with the title before the first. -/
def appendLine (title : String) (st : PassState) (e : Emit) : PassState :=
  { statusText := e.run (if st.header then st.statusText else st.statusText ++ "\n" ++ title)
    header := true }

/-- Append the lines of a section in place, one after the other. -/
def renderSection (title : String) (lines : List Emit) (st : PassState) : PassState :=
  lines.foldl (appendLine title) st

/-- The buffer after the four sections were appended in place, in the order
staged, unstaged, untracked, ignored. -/
def renderSections (staged unstaged untracked ignored : List Emit) : String :=
  let st1 := renderSection "Changes to be committed:\n" staged ⟨"", false⟩
  let st2 := renderSection "Changes not staged for commit:\n" unstaged ⟨st1.statusText, false⟩
  let st3 := renderSection "Untracked files:\n" untracked ⟨st2.statusText, false⟩
  let st4 := renderSection "Ignored files:\n" ignored ⟨st3.statusText, false⟩
  st4.statusText

/-- The advisory text of line 178. -/
def advisory : String := "\nNo changes added to commit\n"

/-! ## Append-only formatting -/

/-- A line formatted on its own: the template with its substitutions applied
to nothing but the template. -/
def Emit.text (e : Emit) : String := e.run ""

/-- A section formatted on its own: nothing when it has no line, else a blank
line, the title and the lines. -/
def sectionText (title : String) (lines : List Emit) : String :=
  if lines.isEmpty then "" else "\n" ++ title ++ String.join (lines.map Emit.text)

/-- The text holds no `%` character. -/
def Clean (s : String) : Prop := '%' ∉ s.data

instance (s : String) : Decidable (Clean s) := by unfold Clean; infer_instance

/-- Every substitution of the line has a value, and no value holds a `%`. -/
def Emit.Clean (e : Emit) : Prop :=
  ∀ r ∈ e.replacements, ∃ w, r.2 = some w ∧ TrackGit.Clean w

/-- The formatted text of a labelled line: `label`, a blank, and either the
pair `old -> new` or the single path, between a tab and a newline. -/
def labelledText (label : String) (d : git_diff_delta) : String :=
  match d.old_file.path, d.new_file.path with
  | some o, some n =>
    if o = n then "\t" ++ label ++ " " ++ o ++ "\n"
    else "\t" ++ label ++ " " ++ o ++ " -> " ++ n ++ "\n"
  | some o, none => "\t" ++ label ++ " " ++ o ++ "\n"
  | none, some n => "\t" ++ label ++ " " ++ n ++ "\n"
  | none, none => "\t" ++ label ++ " %file\n"

/-- A placeholder: a text that starts with `%`. -/
def IsPlaceholder (ph : String) : Prop := ∃ p, ph.data = '%' :: p

/-- The flag set that holds `NEW` alone. -/
def FlagSet.onlyNew : FlagSet := ⟨true, false, false, false, false⟩

/-- The only signal of the record is workdir-`NEW`. -/
def ChangeRecord.isUntracked (r : ChangeRecord) : Bool :=
  decide (r.indexFlags = FlagSet.empty ∧ r.workdirFlags = FlagSet.onlyNew ∧ r.ignored = false)

/-- The record is ignored and holds no flag. -/
def ChangeRecord.isIgnoredOnly (r : ChangeRecord) : Bool :=
  decide (r.indexFlags = FlagSet.empty ∧ r.workdirFlags = FlagSet.empty ∧ r.ignored = true)

/-- A line whose placeholders all start with `%` and whose own text is free of
`%` as soon as its substituted values are. -/
def GoodLine (e : Emit) : Prop :=
  (∀ r ∈ e.replacements, IsPlaceholder r.1) ∧ (e.Clean → Clean e.text)

/-- Every line of the four sections has all its values, free of `%`. -/
def CleanLines (es : List git_status_entry) : Prop :=
  ∀ e ∈ stagedLines es ++ unstagedLines es ++ untrackedLines es ++ ignoredLines es, e.Clean

/-! ## Sample records -/

/-- The delta pair `old.txt -> new.txt`. -/
def oldNew : git_diff_delta := delta (some "old.txt") (some "new.txt")

/-- A file renamed in the index (scenario D). -/
def renamedOnly : ChangeRecord :=
  { indexFlags := ⟨false, false, false, true, false⟩, workdirFlags := FlagSet.empty,
    ignored := false, headToIndex := some oldNew, indexToWorkdir := none }

/-- A file renamed in the index whose old path is the text `%new`. -/
def renamedPercent : ChangeRecord :=
  { indexFlags := ⟨false, false, false, true, false⟩, workdirFlags := FlagSet.empty,
    ignored := false, headToIndex := some (delta (some "%new") (some "x")),
    indexToWorkdir := none }

/-- A file modified in the index and modified again in the workdir. -/
def partlyStaged : ChangeRecord :=
  { indexFlags := ⟨false, true, false, false, false⟩,
    workdirFlags := ⟨false, true, false, false, false⟩, ignored := false,
    headToIndex := some (delta (some "a.txt") (some "a.txt")),
    indexToWorkdir := some (delta (some "a.txt") (some "a.txt")) }

instance (e : Emit) : Decidable e.Clean := by unfold Emit.Clean; infer_instance

instance (es : List git_status_entry) : Decidable (CleanLines es) := by
  unfold CleanLines; infer_instance

/-- The record of scenario A: a file new in the index, with the pair
`("", p)`, the empty old path being the absent one. -/
def newFile (p : String) : ChangeRecord :=
  { indexFlags := ⟨true, false, false, false, false⟩, workdirFlags := FlagSet.empty,
    ignored := false, headToIndex := some (delta none (some p)), indexToWorkdir := none }

/-- A current record: no flag, not ignored. -/
def currentFile : ChangeRecord :=
  { indexFlags := FlagSet.empty, workdirFlags := FlagSet.empty, ignored := false,
    headToIndex := none, indexToWorkdir := some (delta (some "c.txt") (some "c.txt")) }

/-- A file modified and renamed in the workdir. -/
def renamedModifiedWorkdir : ChangeRecord :=
  { indexFlags := FlagSet.empty, workdirFlags := ⟨false, true, false, true, false⟩,
    ignored := false, headToIndex := none, indexToWorkdir := some oldNew }

/-- An untracked file. -/
def untrackedFile : ChangeRecord :=
  { indexFlags := FlagSet.empty, workdirFlags := FlagSet.onlyNew, ignored := false,
    headToIndex := none, indexToWorkdir := some (delta (some "u.txt") (some "u.txt")) }

/-- An ignored file. -/
def ignoredFile : ChangeRecord :=
  { indexFlags := FlagSet.empty, workdirFlags := FlagSet.empty, ignored := true,
    headToIndex := none, indexToWorkdir := some (delta (some "i.txt") (some "i.txt")) }

/-- The record of scenario B: a file modified in the workdir, with the pair
`(p, p)`. -/
def modifiedFile (p : String) : ChangeRecord :=
  { indexFlags := FlagSet.empty, workdirFlags := ⟨false, true, false, false, false⟩,
    ignored := false, headToIndex := none, indexToWorkdir := some (delta (some p) (some p)) }

/-- The buffer after one section was appended in place: unchanged when the
section has no line; else the blank line and the title, then the first line,
then the other lines. -/
def appendSection (title : String) (lines : List Emit) (buf : String) : String :=
  match lines with
  | [] => buf
  | e :: rest => rest.foldl (fun b e' => e'.run b) (e.run (buf ++ "\n" ++ title))

/-- The lines one entry has in the four sections, in section order. -/
def linesOf (s : git_status_entry) : List Emit :=
  (stagedBody s).line?.toList ++ (unstagedBody s).line?.toList
    ++ (untrackedBody s).line?.toList ++ (ignoredBody s).line?.toList

/-- Every `ReplaceFirst` of the line is given a value that is not `NULL`. -/
def Emit.Complete (e : Emit) : Prop := ∀ x ∈ e.replacements, x.2.isSome = true

instance (e : Emit) : Decidable e.Complete := by unfold Emit.Complete; infer_instance

/-- The delta pair is present and holds at least one path. -/
def hasPath : Option git_diff_delta → Bool
  | some d => d.old_file.path.isSome || d.new_file.path.isSome
  | none => false

/-- The delta pair is present and holds its old path. -/
def hasOldPath : Option git_diff_delta → Bool
  | some d => d.old_file.path.isSome
  | none => false

/-- The precondition on one record: with an index-side flag, headToIndex is
present with at least one path; with a status that is exactly workdir-NEW or
exactly ignored, indexToWorkdir is present with its old path. -/
def ChangeRecord.Precondition (r : ChangeRecord) : Prop :=
  (r.indexFlags ≠ FlagSet.empty → hasPath r.headToIndex = true)
    ∧ (r.isUntracked = true ∨ r.isIgnoredOnly = true → hasOldPath r.indexToWorkdir = true)

instance (r : ChangeRecord) : Decidable r.Precondition := by
  unfold ChangeRecord.Precondition; infer_instance

/-- A file modified in the workdir whose pair holds no path. -/
def modifiedNoPaths : ChangeRecord :=
  { indexFlags := FlagSet.empty, workdirFlags := ⟨false, true, false, false, false⟩,
    ignored := false, headToIndex := none, indexToWorkdir := some (delta none none) }

/-- The append-only construction: each line is formatted from its own
template and values alone, and the lines are concatenated under the headers
of their sections, with the advisory text at the end. -/
def appendOnlyReport (status : List git_status_entry) : String :=
  sectionText "Changes to be committed:\n" (stagedLines status)
    ++ sectionText "Changes not staged for commit:\n" (unstagedLines status)
    ++ sectionText "Untracked files:\n" (untrackedLines status)
    ++ sectionText "Ignored files:\n" (ignoredLines status)
    ++ (if (stagedLines status).isEmpty && !(unstagedLines status).isEmpty then advisory
        else "")

/-- An untracked file with the path `p`. -/
def untrackedNamed (p : String) : ChangeRecord :=
  { indexFlags := FlagSet.empty, workdirFlags := FlagSet.onlyNew, ignored := false,
    headToIndex := none, indexToWorkdir := some (delta (some p) (some p)) }

/-! ## Lemmas on first-occurrence substitution -/

theorem isPrefixOf_cons_ne {a c : Char} (h : c ≠ a) (p l : List Char) :
    (a :: p).isPrefixOf (c :: l) = false := by
  simp [List.isPrefixOf, Ne.symm h]

theorem replaceFirstChars_clean_append (a : Char) (p w : List Char) :
    ∀ (buf t : List Char), a ∉ buf →
      replaceFirstChars (a :: p) w (buf ++ t) = buf ++ replaceFirstChars (a :: p) w t
  | [], t, _ => rfl
  | c :: cs, t, h => by
    have hc : c ≠ a := fun e => h (e ▸ List.mem_cons_self _ _)
    have hcs : a ∉ cs := fun e => h (List.mem_cons_of_mem _ e)
    have ih := replaceFirstChars_clean_append a p w cs t hcs
    simp only [List.cons_append, replaceFirstChars, isPrefixOf_cons_ne hc, Bool.false_eq_true,
      if_false, List.append_eq, ih]

theorem isPrefixOf_self_append (p r : List Char) : p.isPrefixOf (p ++ r) = true := by
  induction p with
  | nil => simp
  | cons a p ih => simp [List.isPrefixOf, ih]

theorem replaceFirstChars_here (a : Char) (p w r : List Char) :
    replaceFirstChars (a :: p) w ((a :: p) ++ r) = w ++ r := by
  have h := isPrefixOf_self_append (a :: p) r
  simp only [List.cons_append] at h ⊢
  simp only [replaceFirstChars, h, if_true]
  have : (a :: (p ++ r)).drop (a :: p).length = r := by
    have := List.drop_left (a :: p) r
    simp
  rw [this]

theorem replaceFirstChars_fill (a : Char) (p w pre r : List Char) (h : a ∉ pre) :
    replaceFirstChars (a :: p) w (pre ++ ((a :: p) ++ r)) = pre ++ (w ++ r) := by
  rw [replaceFirstChars_clean_append a p w pre _ h, replaceFirstChars_here]

theorem replaceFirstChars_absent (a : Char) (p w : List Char) :
    ∀ (t : List Char), a ∉ t → replaceFirstChars (a :: p) w t = t
  | [], _ => rfl
  | c :: cs, h => by
    have hc : c ≠ a := fun e => h (e ▸ List.mem_cons_self _ _)
    have hcs : a ∉ cs := fun e => h (List.mem_cons_of_mem _ e)
    simp only [replaceFirstChars, isPrefixOf_cons_ne hc, Bool.false_eq_true, if_false,
      replaceFirstChars_absent a p w cs hcs]

theorem ReplaceFirst_clean_append (buf t ph : String) (w : Option String)
    (hb : Clean buf) (hp : IsPlaceholder ph) :
    ReplaceFirst (buf ++ t) ph w = buf ++ ReplaceFirst t ph w := by
  obtain ⟨p, hp⟩ := hp
  cases w with
  | none => rfl
  | some w =>
    apply String.ext
    simp only [ReplaceFirst, String.data_append, hp]
    exact replaceFirstChars_clean_append '%' p w.data buf.data t.data hb

theorem Emit.run_eq_append_text (e : Emit) (buf : String) (hb : TrackGit.Clean buf)
    (hp : ∀ r ∈ e.replacements, IsPlaceholder r.1) :
    e.run buf = buf ++ e.text := by
  unfold Emit.text Emit.run
  generalize e.template = t
  generalize e.replacements = rs at hp
  simp only [String.empty_append]
  induction rs generalizing t with
  | nil => rfl
  | cons r rs ih =>
    simp only [List.foldl_cons]
    rw [ReplaceFirst_clean_append buf t r.1 r.2 hb (hp r (List.mem_cons_self _ _))]
    exact ih _ (fun r' h' => hp r' (List.mem_cons_of_mem _ h'))

theorem Clean_append {a b : String} : Clean (a ++ b) ↔ Clean a ∧ Clean b := by
  simp [Clean, String.data_append, not_or]

theorem ReplaceFirst_fill (pre ph r w : String) (hpre : Clean pre) (hp : IsPlaceholder ph) :
    ReplaceFirst (pre ++ ph ++ r) ph (some w) = pre ++ w ++ r := by
  obtain ⟨p, hp⟩ := hp
  apply String.ext
  simp only [ReplaceFirst, String.data_append, hp, List.append_assoc]
  exact replaceFirstChars_fill '%' p w.data pre.data r.data hpre

theorem placeholder_old : IsPlaceholder "%old" := ⟨_, rfl⟩
theorem placeholder_new : IsPlaceholder "%new" := ⟨_, rfl⟩
theorem placeholder_file : IsPlaceholder "%file" := ⟨_, rfl⟩
theorem placeholder_istatus : IsPlaceholder "%istatus" := ⟨_, rfl⟩
theorem placeholder_wstatus : IsPlaceholder "%wstatus" := ⟨_, rfl⟩

theorem labelledLine_placeholders (ph l : String) (d : git_diff_delta) (hp : IsPlaceholder ph) :
    ∀ r ∈ (labelledLine ph l d).replacements, IsPlaceholder r.1 := by
  intro r hr
  by_cases h : isRename d.old_file.path d.new_file.path = true
  · simp [labelledLine, h] at hr
    rcases hr with rfl | rfl | rfl
    · exact hp
    · exact placeholder_old
    · exact placeholder_new
  · simp [labelledLine, h] at hr
    rcases hr with rfl | rfl
    · exact hp
    · exact placeholder_file

theorem pathLine_placeholders (d : git_diff_delta) :
    ∀ r ∈ (pathLine d).replacements, IsPlaceholder r.1 := by
  intro r hr
  simp only [pathLine, List.mem_singleton] at hr
  subst hr
  exact placeholder_file

theorem single_text (ph l p : String) (hp : IsPlaceholder ph) (hl : Clean l) :
    ReplaceFirst (ReplaceFirst ("\t" ++ ph ++ " %file\n") ph (some l)) "%file" (some p)
      = "\t" ++ l ++ " " ++ p ++ "\n" := by
  rw [ReplaceFirst_fill "\t" ph " %file\n" l (by decide) hp]
  have e : "\t" ++ l ++ " %file\n" = ("\t" ++ l ++ " ") ++ "%file" ++ "\n" := by
    simp only [String.append_assoc]; rfl
  rw [e, ReplaceFirst_fill _ "%file" "\n" p _ placeholder_file]
  exact Clean_append.2 ⟨Clean_append.2 ⟨by decide, hl⟩, by decide⟩

theorem rename_text (ph l o n : String) (hp : IsPlaceholder ph) (hl : Clean l) (ho : Clean o) :
    ReplaceFirst (ReplaceFirst (ReplaceFirst ("\t" ++ ph ++ " %old -> %new\n") ph (some l))
      "%old" (some o)) "%new" (some n) = "\t" ++ l ++ " " ++ o ++ " -> " ++ n ++ "\n" := by
  rw [ReplaceFirst_fill "\t" ph " %old -> %new\n" l (by decide) hp]
  have hpre : Clean ("\t" ++ l ++ " ") := Clean_append.2 ⟨Clean_append.2 ⟨by decide, hl⟩, by decide⟩
  have e : "\t" ++ l ++ " %old -> %new\n" = ("\t" ++ l ++ " ") ++ "%old" ++ " -> %new\n" := by
    simp only [String.append_assoc]; rfl
  rw [e, ReplaceFirst_fill _ "%old" " -> %new\n" o hpre placeholder_old]
  have e2 : "\t" ++ l ++ " " ++ o ++ " -> %new\n" = ("\t" ++ l ++ " " ++ o ++ " -> ") ++ "%new" ++ "\n" := by
    simp only [String.append_assoc]; rfl
  rw [e2, ReplaceFirst_fill _ "%new" "\n" n _ placeholder_new]
  exact Clean_append.2 ⟨Clean_append.2 ⟨hpre, ho⟩, by decide⟩

theorem labelledLine_text (ph l : String) (d : git_diff_delta) (hp : IsPlaceholder ph)
    (hl : Clean l)
    (ho : ∀ o, d.old_file.path = some o → isRename d.old_file.path d.new_file.path = true → Clean o) :
    (labelledLine ph l d).text = labelledText l d := by
  rcases d with ⟨⟨o⟩, ⟨n⟩⟩
  cases o with
  | none =>
    cases n with
    | none =>
      simp only [Emit.text, Emit.run, labelledLine, labelledText, isRename, Bool.false_eq_true,
        if_false, List.foldl_cons, List.foldl_nil, String.empty_append, Option.isSome_none]
      simp only [ReplaceFirst]
      have := ReplaceFirst_fill "\t" ph " %file\n" l (by decide) hp
      simpa [ReplaceFirst] using this
    | some n =>
      simp only [Emit.text, Emit.run, labelledLine, labelledText, isRename, Bool.false_eq_true,
        if_false, List.foldl_cons, List.foldl_nil, String.empty_append, Option.isSome_none]
      exact single_text ph l n hp hl
  | some o =>
    cases n with
    | none =>
      simp only [Emit.text, Emit.run, labelledLine, labelledText, isRename, Bool.false_eq_true,
        if_false, List.foldl_cons, List.foldl_nil, String.empty_append, Option.isSome_some, if_true]
      exact single_text ph l o hp hl
    | some n =>
      by_cases hon : o = n
      · subst hon
        simp only [Emit.text, Emit.run, labelledLine, labelledText, isRename, bne_self_eq_false,
          Bool.false_eq_true, if_false, List.foldl_cons, List.foldl_nil, String.empty_append,
          Option.isSome_some, if_true]
        exact single_text ph l o hp hl
      · have hne : (o != n) = true := by simpa using hon
        simp only [Emit.text, Emit.run, labelledLine, labelledText, isRename, hne, hon,
          if_false, List.foldl_cons, List.foldl_nil, String.empty_append, if_true]
        exact rename_text ph l o n hp hl (ho o rfl (by simp [isRename, hon]))

theorem pathLine_text (d : git_diff_delta) (p : String) (h : d.old_file.path = some p) :
    (pathLine d).text = "\t" ++ p ++ "\n" := by
  simp only [Emit.text, Emit.run, pathLine, h, List.foldl_cons, List.foldl_nil,
    String.empty_append]
  have := ReplaceFirst_fill "\t" "%file" "\n" p (by decide) placeholder_file
  exact this

/-! ## The loops as sections -/

theorem runPass_eq (title : String) (body : git_status_entry → Step) :
    ∀ (es : List git_status_entry) (st : PassState),
      runPass title body es st =
        if es.any (fun s => decide (body s = .null_deref)) then none
        else some (renderSection title (sectionLines body es) st)
  | [], st => rfl
  | s :: rest, st => by
    cases h : body s with
    | skip =>
      simp [runPass, h, sectionLines, Step.line?, renderSection, runPass_eq title body rest st]
    | null_deref => simp [runPass, h]
    | line e =>
      simp [runPass, h, sectionLines, Step.line?, renderSection, appendLine,
        runPass_eq title body rest]

theorem renderSection_header (title : String) :
    ∀ (lines : List Emit) (st : PassState),
      (renderSection title lines st).header = (st.header || !lines.isEmpty)
  | [], st => by simp [renderSection]
  | e :: rest, st => by
    have ih := renderSection_header title rest (appendLine title st e)
    simp only [renderSection, List.foldl_cons] at ih ⊢
    rw [ih]
    simp [appendLine]

theorem unstagedBody_ne_null_deref (s : git_status_entry) : unstagedBody s ≠ .null_deref := by
  unfold unstagedBody
  split
  · simp
  · rename_i h
    have hw : s.index_to_workdir ≠ none := fun e => h (Or.inr e)
    split
    · simp
    · split
      · exact absurd ‹_› hw
      · simp

theorem any_nullDeref_false {es : List git_status_entry} (h : es.any nullDeref = false)
    (body : git_status_entry → Step)
    (hb : ∀ s, body s = .null_deref → nullDeref s = true) :
    es.any (fun s => decide (body s = .null_deref)) = false := by
  rw [List.any_eq_false] at h ⊢
  intro s hs hd
  exact h s hs (hb s (of_decide_eq_true hd))

theorem fourPasses_eq (es : List git_status_entry) :
    fourPasses es =
      if es.any nullDeref then none
      else some (renderSections (stagedLines es) (unstagedLines es) (untrackedLines es)
          (ignoredLines es),
        !(stagedLines es).isEmpty, !(unstagedLines es).isEmpty) := by
  unfold fourPasses
  simp only [runPass_eq]
  by_cases h : es.any nullDeref = true
  · rw [if_pos h]
    rw [List.any_eq_true] at h
    obtain ⟨s, hs, hn⟩ := h
    simp only [nullDeref, Bool.or_eq_true, decide_eq_true_eq] at hn
    have hu : es.any (fun s => decide (unstagedBody s = .null_deref)) = false := by
      rw [List.any_eq_false]; intro s _; simp [unstagedBody_ne_null_deref]
    by_cases h1 : es.any (fun s => decide (stagedBody s = .null_deref)) = true
    · simp [h1]
    · by_cases h3 : es.any (fun s => decide (untrackedBody s = .null_deref)) = true
      · simp [h1, hu, h3]
      · by_cases h4 : es.any (fun s => decide (ignoredBody s = .null_deref)) = true
        · simp [h1, hu, h3, h4]
        · exfalso
          simp only [Bool.not_eq_true] at h1 h3 h4
          rw [List.any_eq_false] at h1 h3 h4
          rcases hn with ((hn | hn) | hn) | hn
          · exact h1 s hs (by simpa using hn)
          · exact unstagedBody_ne_null_deref s hn
          · exact h3 s hs (by simpa using hn)
          · exact h4 s hs (by simpa using hn)
  · simp only [Bool.not_eq_true] at h
    have h1 := any_nullDeref_false h stagedBody (by intro s e; simp [nullDeref, e])
    have h2 := any_nullDeref_false h unstagedBody (by intro s e; simp [nullDeref, e])
    have h3 := any_nullDeref_false h untrackedBody (by intro s e; simp [nullDeref, e])
    have h4 := any_nullDeref_false h ignoredBody (by intro s e; simp [nullDeref, e])
    simp only [h, h1, h2, h3, h4, Bool.false_eq_true, if_false, renderSection_header,
      Bool.false_or, renderSections, stagedLines, unstagedLines, untrackedLines, ignoredLines]

theorem GetStatusTextUtil_eq (es : List git_status_entry) :
    GetStatusTextUtil es =
      if es.any nullDeref then none
      else
        let body := renderSections (stagedLines es) (unstagedLines es) (untrackedLines es)
          (ignoredLines es)
        if (stagedLines es).isEmpty && !(unstagedLines es).isEmpty then some (body ++ advisory)
        else some body := by
  unfold GetStatusTextUtil
  rw [fourPasses_eq]
  by_cases h : es.any nullDeref = true
  · simp [h]
  · simp only [h, Bool.false_eq_true, if_false, Bool.not_not, advisory]

/-! ## The status mask of a record -/

theorem istatus_statusMask (i w : FlagSet) (g : Bool) :
    istatus (statusMask i w g) = (lastPresent indexOrder i).map Flag.text := by
  rcases i with ⟨a, b, c, d, e⟩
  rcases w with ⟨f, g', h, i, j⟩
  cases a <;> cases b <;> cases c <;> cases d <;> cases e <;> cases f <;> cases g' <;>
    cases h <;> cases i <;> cases j <;> cases g <;> decide

theorem wstatus_statusMask (i w : FlagSet) (g : Bool) :
    wstatus (statusMask i w g) = (lastPresent workdirOrder w).map Flag.text := by
  rcases i with ⟨a, b, c, d, e⟩
  rcases w with ⟨f, g', h, i, j⟩
  cases a <;> cases b <;> cases c <;> cases d <;> cases e <;> cases f <;> cases g' <;>
    cases h <;> cases i <;> cases j <;> cases g <;> decide

theorem statusMask_eq_current (i w : FlagSet) (g : Bool) :
    statusMask i w g = GIT_STATUS_CURRENT ↔
      (i = FlagSet.empty ∧ w = FlagSet.empty ∧ g = false) := by
  rcases i with ⟨a, b, c, d, e⟩
  rcases w with ⟨f, g', h, i, j⟩
  cases a <;> cases b <;> cases c <;> cases d <;> cases e <;> cases f <;> cases g' <;>
    cases h <;> cases i <;> cases j <;> cases g <;> decide

theorem statusMask_eq_wt_new (i w : FlagSet) (g : Bool) :
    statusMask i w g = GIT_STATUS_WT_NEW ↔
      (i = FlagSet.empty ∧ w = FlagSet.onlyNew ∧ g = false) := by
  rcases i with ⟨a, b, c, d, e⟩
  rcases w with ⟨f, g', h, i, j⟩
  cases a <;> cases b <;> cases c <;> cases d <;> cases e <;> cases f <;> cases g' <;>
    cases h <;> cases i <;> cases j <;> cases g <;> decide

theorem statusMask_eq_ignored (i w : FlagSet) (g : Bool) :
    statusMask i w g = GIT_STATUS_IGNORED ↔
      (i = FlagSet.empty ∧ w = FlagSet.empty ∧ g = true) := by
  rcases i with ⟨a, b, c, d, e⟩
  rcases w with ⟨f, g', h, i, j⟩
  cases a <;> cases b <;> cases c <;> cases d <;> cases e <;> cases f <;> cases g' <;>
    cases h <;> cases i <;> cases j <;> cases g <;> decide

theorem lastPresent_index_isSome (f : FlagSet) :
    (lastPresent indexOrder f).isSome = true ↔ f ≠ FlagSet.empty := by
  rcases f with ⟨a, b, c, d, e⟩
  cases a <;> cases b <;> cases c <;> cases d <;> cases e <;> decide

theorem lastPresent_workdir_isSome (f : FlagSet) :
    (lastPresent workdirOrder f).isSome = (firstPresent workdirOrder f).isSome := by
  rcases f with ⟨a, b, c, d, e⟩
  cases a <;> cases b <;> cases c <;> cases d <;> cases e <;> decide

/-! ## The loop bodies on a record -/

theorem stagedBody_toEntry (r : ChangeRecord) :
    stagedBody r.toEntry =
      match lastPresent indexOrder r.indexFlags with
      | none => .skip
      | some fl =>
        match r.headToIndex with
        | none => .null_deref
        | some d => .line (labelledLine "%istatus" fl.text d) := by
  unfold stagedBody
  simp only [ChangeRecord.toEntry, ChangeRecord.status, istatus_statusMask]
  by_cases hc : statusMask r.indexFlags r.workdirFlags r.ignored = GIT_STATUS_CURRENT
  · have hi := ((statusMask_eq_current _ _ _).1 hc).1
    rw [if_pos hc, hi]
    rfl
  · rw [if_neg hc]
    cases lastPresent indexOrder r.indexFlags <;> rfl

theorem unstagedBody_toEntry (r : ChangeRecord) :
    unstagedBody r.toEntry =
      match r.indexToWorkdir with
      | none => .skip
      | some d =>
        match lastPresent workdirOrder r.workdirFlags with
        | none => .skip
        | some fl => .line (labelledLine "%wstatus" fl.text d) := by
  unfold unstagedBody
  simp only [ChangeRecord.toEntry, ChangeRecord.status, wstatus_statusMask]
  by_cases hc : statusMask r.indexFlags r.workdirFlags r.ignored = GIT_STATUS_CURRENT
  · have hw := ((statusMask_eq_current _ _ _).1 hc).2.1
    rw [if_pos (Or.inl hc), hw]
    cases r.indexToWorkdir <;> rfl
  · cases hd : r.indexToWorkdir with
    | none => simp
    | some d =>
      simp only [hc, false_or, reduceCtorEq, if_false]
      cases lastPresent workdirOrder r.workdirFlags <;> rfl

theorem untrackedBody_toEntry (r : ChangeRecord) :
    untrackedBody r.toEntry =
      if r.isUntracked then
        match r.indexToWorkdir with
        | none => .null_deref
        | some d => .line (pathLine d)
      else .skip := by
  unfold untrackedBody
  simp only [ChangeRecord.toEntry, ChangeRecord.status, statusMask_eq_wt_new,
    ChangeRecord.isUntracked, decide_eq_true_eq]

theorem ignoredBody_toEntry (r : ChangeRecord) :
    ignoredBody r.toEntry =
      if r.isIgnoredOnly then
        match r.indexToWorkdir with
        | none => .null_deref
        | some d => .line (pathLine d)
      else .skip := by
  unfold ignoredBody
  simp only [ChangeRecord.toEntry, ChangeRecord.status, statusMask_eq_ignored,
    ChangeRecord.isIgnoredOnly, decide_eq_true_eq]

theorem sectionLines_append (body : git_status_entry → Step) (a b : List git_status_entry) :
    sectionLines body (a ++ b) = sectionLines body a ++ sectionLines body b := by
  simp [sectionLines]

theorem sectionLines_insert_line (body : git_status_entry → Step)
    (pre post : List git_status_entry) (s : git_status_entry) (e : Emit)
    (h : body s = .line e) :
    sectionLines body (pre ++ s :: post) =
      sectionLines body pre ++ e :: sectionLines body post := by
  simp [sectionLines, h, Step.line?]

theorem sectionLines_insert_skip (body : git_status_entry → Step)
    (pre post : List git_status_entry) (s : git_status_entry)
    (h : (body s).line? = none) :
    sectionLines body (pre ++ s :: post) = sectionLines body pre ++ sectionLines body post := by
  simp [sectionLines, h]

/-! ## Lines free of `%` -/

theorem Flag.text_clean (fl : Flag) : Clean fl.text := by
  cases fl <;> decide

theorem istatus_clean {status : Nat} {l : String} (h : istatus status = some l) : Clean l := by
  unfold istatus at h
  simp only at h
  split_ifs at h <;> (cases h; decide)

theorem wstatus_clean {status : Nat} {l : String} (h : wstatus status = some l) : Clean l := by
  unfold wstatus at h
  simp only at h
  split_ifs at h <;> (cases h; decide)

theorem labelledLine_good (ph l : String) (d : git_diff_delta) (hp : IsPlaceholder ph)
    (hl : Clean l) : GoodLine (labelledLine ph l d) := by
  refine ⟨labelledLine_placeholders ph l d hp, fun hc => ?_⟩
  rcases d with ⟨⟨o⟩, ⟨n⟩⟩
  by_cases hr : isRename o n = true
  · have hmem : ∀ r ∈ [(ph, some l), ("%old", o), ("%new", n)],
        ∃ w, r.2 = some w ∧ Clean w := by
      have := hc
      simpa only [Emit.Clean, labelledLine, hr, if_true] using this
    obtain ⟨o', ho', hco⟩ := hmem ("%old", o) (by simp)
    obtain ⟨n', hn', hcn⟩ := hmem ("%new", n) (by simp)
    simp only at ho' hn'
    subst ho' hn'
    have hne : o' ≠ n' := by simpa [isRename] using hr
    rw [labelledLine_text ph l _ hp hl (by intro o h _; cases h; exact hco)]
    simp only [labelledText, hne, if_false]
    exact Clean_append.2 ⟨Clean_append.2 ⟨Clean_append.2 ⟨Clean_append.2 ⟨Clean_append.2
      ⟨Clean_append.2 ⟨by decide, hl⟩, by decide⟩, hco⟩, by decide⟩, hcn⟩, by decide⟩
  · have hmem : ∀ r ∈ [(ph, some l), ("%file", if o.isSome then o else n)],
        ∃ w, r.2 = some w ∧ Clean w := by
      have := hc
      simpa only [Emit.Clean, labelledLine, hr, if_false] using this
    obtain ⟨p, hp', hcp⟩ := hmem ("%file", if o.isSome then o else n) (by simp)
    simp only at hp'
    rw [labelledLine_text ph l _ hp hl (by intro o' _ h; exact absurd h hr)]
    have key : ∀ q, Clean q → Clean ("\t" ++ l ++ " " ++ q ++ "\n") := fun q hq =>
      Clean_append.2 ⟨Clean_append.2 ⟨Clean_append.2 ⟨Clean_append.2 ⟨by decide, hl⟩,
        by decide⟩, hq⟩, by decide⟩
    cases o with
    | none =>
      cases n with
      | none => simp at hp'
      | some n =>
        simp only [Option.isSome_none, Bool.false_eq_true, if_false, Option.some.injEq] at hp'
        subst hp'
        exact key _ hcp
    | some o =>
      simp only [Option.isSome_some, if_true, Option.some.injEq] at hp'
      subst hp'
      cases n with
      | none => exact key _ hcp
      | some n =>
        have : o = n := by simpa [isRename] using hr
        subst this
        simp only [labelledText, if_true]
        exact key _ hcp

theorem pathLine_good (d : git_diff_delta) : GoodLine (pathLine d) := by
  refine ⟨pathLine_placeholders d, fun hc => ?_⟩
  obtain ⟨p, hp, hcp⟩ := hc ("%file", d.old_file.path) (by simp [pathLine])
  simp only at hp
  rw [pathLine_text d p hp]
  exact Clean_append.2 ⟨Clean_append.2 ⟨by decide, hcp⟩, by decide⟩

theorem stagedBody_good {s : git_status_entry} {e : Emit} (h : stagedBody s = .line e) :
    GoodLine e := by
  unfold stagedBody at h
  split at h
  · cases h
  · split at h
    · cases h
    · rename_i l hl
      split at h
      · cases h
      · cases h
        exact labelledLine_good _ _ _ placeholder_istatus (istatus_clean hl)

theorem unstagedBody_good {s : git_status_entry} {e : Emit} (h : unstagedBody s = .line e) :
    GoodLine e := by
  unfold unstagedBody at h
  split at h
  · cases h
  · split at h
    · cases h
    · rename_i l hl
      split at h
      · cases h
      · cases h
        exact labelledLine_good _ _ _ placeholder_wstatus (wstatus_clean hl)

theorem untrackedBody_good {s : git_status_entry} {e : Emit} (h : untrackedBody s = .line e) :
    GoodLine e := by
  unfold untrackedBody at h
  split at h
  · split at h
    · cases h
    · cases h; exact pathLine_good _
  · cases h

theorem ignoredBody_good {s : git_status_entry} {e : Emit} (h : ignoredBody s = .line e) :
    GoodLine e := by
  unfold ignoredBody at h
  split at h
  · split at h
    · cases h
    · cases h; exact pathLine_good _
  · cases h

theorem mem_sectionLines {body : git_status_entry → Step} {es : List git_status_entry}
    {e : Emit} (h : e ∈ sectionLines body es) : ∃ s ∈ es, body s = .line e := by
  simp only [sectionLines, List.mem_filterMap] at h
  obtain ⟨s, hs, hl⟩ := h
  refine ⟨s, hs, ?_⟩
  cases hb : body s with
  | skip => simp [hb, Step.line?] at hl
  | null_deref => simp [hb, Step.line?] at hl
  | line e' =>
    simp only [hb, Step.line?, Option.some.injEq] at hl
    rw [hl]

/-! ## In-place rendering of clean lines is concatenation -/

theorem foldl_append_eq (l : List String) :
    ∀ acc : String, List.foldl (fun r s => r ++ s) acc l
      = acc ++ List.foldl (fun r s => r ++ s) "" l := by
  induction l with
  | nil => intro acc; simp
  | cons b l ih =>
    intro acc
    rw [List.foldl_cons, ih (acc ++ b), List.foldl_cons, ih ("" ++ b)]
    simp [String.append_assoc]

theorem join_cons (a : String) (l : List String) :
    String.join (a :: l) = a ++ String.join l := by
  unfold String.join
  rw [List.foldl_cons, foldl_append_eq l ("" ++ a)]
  simp

theorem appendLine_clean (title : String) (ht : Clean title) (st : PassState) (e : Emit)
    (hst : Clean st.statusText) (hg : GoodLine e) (hc : e.Clean) :
    (appendLine title st e).statusText =
        st.statusText ++ (if st.header then "" else "\n" ++ title) ++ e.text
      ∧ Clean (appendLine title st e).statusText := by
  have hbuf : Clean (if st.header then st.statusText else st.statusText ++ "\n" ++ title) := by
    split
    · exact hst
    · exact Clean_append.2 ⟨Clean_append.2 ⟨hst, by decide⟩, ht⟩
  have hrun := Emit.run_eq_append_text e _ hbuf hg.1
  have heq : (appendLine title st e).statusText =
      st.statusText ++ (if st.header then "" else "\n" ++ title) ++ e.text := by
    simp only [appendLine, hrun]
    split <;> simp [String.append_assoc]
  refine ⟨heq, ?_⟩
  simp only [appendLine, hrun]
  exact Clean_append.2 ⟨hbuf, hg.2 hc⟩

theorem renderSection_clean (title : String) (ht : Clean title) :
    ∀ (lines : List Emit) (st : PassState), Clean st.statusText →
      (∀ e ∈ lines, GoodLine e ∧ e.Clean) →
      (renderSection title lines st).statusText =
          st.statusText ++ (if st.header || lines.isEmpty then "" else "\n" ++ title)
            ++ String.join (lines.map Emit.text)
        ∧ Clean (renderSection title lines st).statusText
  | [], st, hst, _ => by
    simp [renderSection, String.join, hst]
  | e :: rest, st, hst, h => by
    have he := h e (List.mem_cons_self _ _)
    have h1 := appendLine_clean title ht st e hst he.1 he.2
    have ih := renderSection_clean title ht rest (appendLine title st e) h1.2
      (fun e' h' => h e' (List.mem_cons_of_mem _ h'))
    simp only [renderSection, List.foldl_cons] at ih ⊢
    refine ⟨?_, ih.2⟩
    rw [ih.1, h1.1]
    have hh : (appendLine title st e).header = true := rfl
    simp only [hh, Bool.true_or, if_true, List.isEmpty_cons, Bool.or_false, List.map_cons]
    rw [join_cons]
    simp [String.append_assoc]


theorem renderSection_fresh (title : String) (ht : Clean title) (lines : List Emit)
    (buf : String) (hb : Clean buf) (h : ∀ e ∈ lines, GoodLine e ∧ e.Clean) :
    (renderSection title lines ⟨buf, false⟩).statusText = buf ++ sectionText title lines
      ∧ Clean (renderSection title lines ⟨buf, false⟩).statusText := by
  have := renderSection_clean title ht lines ⟨buf, false⟩ hb h
  refine ⟨?_, this.2⟩
  rw [this.1]
  cases lines with
  | nil => simp [sectionText, String.join]
  | cons e rest => simp [sectionText, String.append_assoc]

theorem renderSections_clean (a b c d : List Emit)
    (ha : ∀ e ∈ a, GoodLine e ∧ e.Clean) (hb : ∀ e ∈ b, GoodLine e ∧ e.Clean)
    (hc : ∀ e ∈ c, GoodLine e ∧ e.Clean) (hd : ∀ e ∈ d, GoodLine e ∧ e.Clean) :
    renderSections a b c d =
      sectionText "Changes to be committed:\n" a
        ++ sectionText "Changes not staged for commit:\n" b
        ++ sectionText "Untracked files:\n" c
        ++ sectionText "Ignored files:\n" d := by
  unfold renderSections
  have h1 := renderSection_fresh "Changes to be committed:\n" (by decide) a "" (by decide) ha
  have h2 := renderSection_fresh "Changes not staged for commit:\n" (by decide) b _ h1.2 hb
  have h3 := renderSection_fresh "Untracked files:\n" (by decide) c _ h2.2 hc
  have h4 := renderSection_fresh "Ignored files:\n" (by decide) d _ h3.2 hd
  dsimp only
  rw [h4.1, h3.1, h2.1, h1.1, String.empty_append]

theorem GetStatusTextUtil_clean (es : List git_status_entry)
    (hn : es.any nullDeref = false) (hc : CleanLines es) :
    GetStatusTextUtil es = some (
      sectionText "Changes to be committed:\n" (stagedLines es)
        ++ sectionText "Changes not staged for commit:\n" (unstagedLines es)
        ++ sectionText "Untracked files:\n" (untrackedLines es)
        ++ sectionText "Ignored files:\n" (ignoredLines es)
        ++ (if (stagedLines es).isEmpty && !(unstagedLines es).isEmpty then advisory else "")) := by
  rw [GetStatusTextUtil_eq, hn]
  have hall : ∀ e, e ∈ stagedLines es ∨ e ∈ unstagedLines es ∨ e ∈ untrackedLines es
      ∨ e ∈ ignoredLines es → e.Clean := by
    intro e he
    apply hc e
    simp only [List.mem_append]
    tauto
  have h := renderSections_clean (stagedLines es) (unstagedLines es) (untrackedLines es)
    (ignoredLines es)
    (fun e he => ⟨by obtain ⟨s, _, hs⟩ := mem_sectionLines he; exact stagedBody_good hs,
      hall e (Or.inl he)⟩)
    (fun e he => ⟨by obtain ⟨s, _, hs⟩ := mem_sectionLines he; exact unstagedBody_good hs,
      hall e (Or.inr (Or.inl he))⟩)
    (fun e he => ⟨by obtain ⟨s, _, hs⟩ := mem_sectionLines he; exact untrackedBody_good hs,
      hall e (Or.inr (Or.inr (Or.inl he)))⟩)
    (fun e he => ⟨by obtain ⟨s, _, hs⟩ := mem_sectionLines he; exact ignoredBody_good hs,
      hall e (Or.inr (Or.inr (Or.inr he)))⟩)
  simp only [Bool.false_eq_true, if_false, h]
  split <;> simp

/-! ## C1: the staged line and its label -/

theorem lastPresent_has {order : List Flag} {f : FlagSet} {fl : Flag}
    (h : lastPresent order f = some fl) : f.has fl = true ∧ fl ∈ order := by
  unfold lastPresent at h
  exact ⟨List.find?_some h, List.mem_reverse.1 (List.mem_of_find?_eq_some h)⟩

theorem firstPresent_has {order : List Flag} {f : FlagSet} {fl : Flag}
    (h : firstPresent order f = some fl) : f.has fl = true ∧ fl ∈ order := by
  unfold firstPresent at h
  exact ⟨List.find?_some h, List.mem_of_find?_eq_some h⟩

theorem unstagedLines_insert (r : ChangeRecord) (d : git_diff_delta) (fl : Flag)
    (pre post : List ChangeRecord)
    (hfl : lastPresent workdirOrder r.workdirFlags = some fl) (hd : r.indexToWorkdir = some d) :
    unstagedLines (entries (pre ++ r :: post)) =
      unstagedLines (entries pre) ++
        labelledLine "%wstatus" fl.text d :: unstagedLines (entries post) := by
  have hb : unstagedBody r.toEntry = .line (labelledLine "%wstatus" fl.text d) := by
    rw [unstagedBody_toEntry, hfl, hd]
  simp only [entries, List.map_append, List.map_cons, unstagedLines]
  exact sectionLines_insert_line _ _ _ _ _ hb

/-- C2, as stated, fails. For the record of scenario D the report holds the
line `renamed:   old.txt -> new.txt` between a tab and a newline, with the
padded label of the source, and the text `renamed: old.txt -> new.txt` occurs
nowhere in it. For an old path `%new` the substitution of `%new` lands in the
old path, and the line reads `x -> %new` in place of `%new -> x`. -/
theorem C2_counterexample :
    stagedLines (entries [renamedOnly]) = [labelledLine "%istatus" Flag.RENAMED.text oldNew]
      ∧ GetStatusTextUtil (entries [renamedOnly])
          = some "\nChanges to be committed:\n\trenamed:   old.txt -> new.txt\n"
      ∧ ¬ ((Flag.RENAMED.label ++ ": old.txt -> new.txt").data <:+:
            "\nChanges to be committed:\n\trenamed:   old.txt -> new.txt\n".data)
      ∧ GetStatusTextUtil (entries [renamedPercent])
          = some "\nChanges to be committed:\n\trenamed:   x -> %new\n" := by
  decide

/-- C2, amended: for a record with a staged (or unstaged) label `L`, the padded
label text of the source, and the delta pair `d` of that side, the loop appends
to a buffer without `%` exactly tab, `L`, blank, `old -> new`, newline when both
paths are present and differ and the old path holds no `%`, and exactly tab,
`L`, blank, path, newline otherwise, the path being the old one when present
and else the new one. -/
theorem C2_labelled_line_text (r : ChangeRecord) (d : git_diff_delta) (fl : Flag)
    (buf : String) (hbuf : Clean buf)
    (hold : ∀ o, d.old_file.path = some o →
      isRename d.old_file.path d.new_file.path = true → Clean o) :
    (lastPresent indexOrder r.indexFlags = some fl → r.headToIndex = some d →
        stagedBody r.toEntry = .line (labelledLine "%istatus" fl.text d)
          ∧ (labelledLine "%istatus" fl.text d).run buf = buf ++ labelledText fl.text d)
      ∧ (lastPresent workdirOrder r.workdirFlags = some fl → r.indexToWorkdir = some d →
        unstagedBody r.toEntry = .line (labelledLine "%wstatus" fl.text d)
          ∧ (labelledLine "%wstatus" fl.text d).run buf = buf ++ labelledText fl.text d)
      ∧ (∀ o n, d = delta (some o) (some n) → o ≠ n →
        labelledText fl.text d = "\t" ++ fl.text ++ " " ++ o ++ " -> " ++ n ++ "\n")
      ∧ (∀ o x, d = delta (some o) x → x = none ∨ x = some o →
        labelledText fl.text d = "\t" ++ fl.text ++ " " ++ o ++ "\n")
      ∧ (∀ n, d = delta none (some n) →
        labelledText fl.text d = "\t" ++ fl.text ++ " " ++ n ++ "\n") := by
  have hrun : ∀ ph, IsPlaceholder ph →
      (labelledLine ph fl.text d).run buf = buf ++ labelledText fl.text d := by
    intro ph hp
    rw [Emit.run_eq_append_text _ buf hbuf (labelledLine_placeholders ph fl.text d hp),
      labelledLine_text ph fl.text d hp (Flag.text_clean fl) hold]
  refine ⟨fun hfl hd => ⟨?_, hrun _ placeholder_istatus⟩,
    fun hfl hd => ⟨?_, hrun _ placeholder_wstatus⟩, ?_, ?_, ?_⟩
  · rw [stagedBody_toEntry, hfl, hd]
  · rw [unstagedBody_toEntry, hfl, hd]
  · intro o n hd hne
    subst hd
    simp [labelledText, delta, hne]
  · intro o x hd hx
    subst hd
    rcases hx with rfl | rfl <;> simp [labelledText, delta]
  · intro n hd
    subst hd
    simp [labelledText, delta]

/-- C2, amended, at the record of scenario D and the buffer that holds the
section title. -/
theorem C2_labelled_line_text_witness :
    Clean "\nChanges to be committed:\n"
      ∧ (∀ o, oldNew.old_file.path = some o →
          isRename oldNew.old_file.path oldNew.new_file.path = true → Clean o)
      ∧ stagedBody renamedOnly.toEntry = .line (labelledLine "%istatus" Flag.RENAMED.text oldNew)
      ∧ (labelledLine "%istatus" Flag.RENAMED.text oldNew).run "\nChanges to be committed:\n"
          = "\nChanges to be committed:\n" ++ "\trenamed:   old.txt -> new.txt\n" :=
  have hold : ∀ o, oldNew.old_file.path = some o →
      isRename oldNew.old_file.path oldNew.new_file.path = true → Clean o := by
    intro o h _
    cases h
    decide
  ⟨by decide, hold,
    ((C2_labelled_line_text renamedOnly oldNew Flag.RENAMED "\nChanges to be committed:\n"
      (by decide) hold).1 (by decide) rfl).1,
    ((C2_labelled_line_text renamedOnly oldNew Flag.RENAMED "\nChanges to be committed:\n"
      (by decide) hold).1 (by decide) rfl).2⟩

/-! ## C3: a record in both the Staged and the Unstaged section -/

theorem GetStatusTextUtil_sections (status : List git_status_entry) :
    GetStatusTextUtil status =
      if status.any nullDeref then none
      else some (renderSections (stagedLines status) (unstagedLines status)
          (untrackedLines status) (ignoredLines status)
        ++ (if stagedLines status = [] ∧ unstagedLines status ≠ [] then
            "\nNo changes added to commit\n" else "")) := by
  rw [GetStatusTextUtil_eq]
  by_cases hn : status.any nullDeref = true
  · simp [hn]
  · simp only [hn, Bool.false_eq_true, if_false]
    by_cases hs : stagedLines status = []
    · by_cases hu : unstagedLines status = []
      · simp [hs, hu]
      · have : (unstagedLines status).isEmpty = false := by
          cases h : unstagedLines status with
          | nil => exact absurd h hu
          | cons _ _ => rfl
        simp [hs, hu, this, advisory]
    · have : (stagedLines status).isEmpty = false := by
        cases h : stagedLines status with
        | nil => exact absurd h hs
        | cons _ _ => rfl
      simp [hs, this]

/-! ## C4: the advisory line -/

/-- C4: whenever the report is built, it is the four sections followed by the
advisory text `No changes added to commit` exactly when the Staged section has
no line and the Unstaged section has at least one; the advisory text, when
there, is the end of the report. -/
theorem C4_advisory_iff (status : List git_status_entry) :
    GetStatusTextUtil status =
      if status.any nullDeref then none
      else some (renderSections (stagedLines status) (unstagedLines status)
          (untrackedLines status) (ignoredLines status)
        ++ (if stagedLines status = [] ∧ unstagedLines status ≠ [] then
            "\nNo changes added to commit\n" else "")) :=
  GetStatusTextUtil_sections status

/-! ## The order of sections and of lines -/

theorem any_perm {α : Type} (p : α → Bool) {l l' : List α} (h : l'.Perm l) :
    l'.any p = l.any p := by
  rw [Bool.eq_iff_iff, List.any_eq_true, List.any_eq_true]
  exact ⟨fun ⟨x, hx, hp⟩ => ⟨x, h.mem_iff.1 hx, hp⟩, fun ⟨x, hx, hp⟩ => ⟨x, h.mem_iff.2 hx, hp⟩⟩

theorem mem_sectionLines_perm (body : git_status_entry → Step) {l l' : List git_status_entry}
    (h : l'.Perm l) (e : Emit) : e ∈ sectionLines body l' ↔ e ∈ sectionLines body l := by
  simp only [sectionLines, List.mem_filterMap]
  exact ⟨fun ⟨x, hx, hp⟩ => ⟨x, h.mem_iff.1 hx, hp⟩, fun ⟨x, hx, hp⟩ => ⟨x, h.mem_iff.2 hx, hp⟩⟩

theorem CleanLines_perm {l l' : List git_status_entry} (h : l'.Perm l) (hc : CleanLines l) :
    CleanLines l' := by
  intro e he
  apply hc e
  simp only [List.mem_append, stagedLines, unstagedLines, untrackedLines, ignoredLines]
    at he ⊢
  simpa only [mem_sectionLines_perm _ h] using he

/-- For a record list and any permutation of it, the report is built by
appending the Staged, the Unstaged, the Untracked and the Ignored section in
this order; the lines of each section are those of the records in input
order: the lines of a list split in two are the lines of the first part
followed by those of the second; and when every line has its values, free
of `%`, the report is the very concatenation of the four section texts and
the advisory text. -/
theorem sections_in_order (rs rs' : List ChangeRecord) (hperm : rs'.Perm rs) :
    (GetStatusTextUtil (entries rs') =
        if (entries rs).any nullDeref then none
        else some (renderSections (stagedLines (entries rs')) (unstagedLines (entries rs'))
            (untrackedLines (entries rs')) (ignoredLines (entries rs'))
          ++ (if stagedLines (entries rs') = [] ∧ unstagedLines (entries rs') ≠ [] then
              advisory else "")))
      ∧ (∀ a b, rs' = a ++ b →
          stagedLines (entries rs') = stagedLines (entries a) ++ stagedLines (entries b)
          ∧ unstagedLines (entries rs') = unstagedLines (entries a) ++ unstagedLines (entries b)
          ∧ untrackedLines (entries rs')
              = untrackedLines (entries a) ++ untrackedLines (entries b)
          ∧ ignoredLines (entries rs') = ignoredLines (entries a) ++ ignoredLines (entries b))
      ∧ ((entries rs).any nullDeref = false → CleanLines (entries rs) →
          GetStatusTextUtil (entries rs') = some (
            sectionText "Changes to be committed:\n" (stagedLines (entries rs'))
              ++ sectionText "Changes not staged for commit:\n" (unstagedLines (entries rs'))
              ++ sectionText "Untracked files:\n" (untrackedLines (entries rs'))
              ++ sectionText "Ignored files:\n" (ignoredLines (entries rs'))
              ++ (if (stagedLines (entries rs')).isEmpty
                    && !(unstagedLines (entries rs')).isEmpty then advisory else ""))) := by
  have hp : (entries rs').Perm (entries rs) := hperm.map _
  refine ⟨?_, ?_, ?_⟩
  · rw [← any_perm nullDeref hp]
    exact GetStatusTextUtil_sections (entries rs')
  · intro a b hab
    subst hab
    simp only [entries, List.map_append, stagedLines, unstagedLines, untrackedLines,
      ignoredLines, sectionLines_append, and_self]
  · intro hn hc
    exact GetStatusTextUtil_clean (entries rs') (by rw [any_perm nullDeref hp]; exact hn)
      (CleanLines_perm hp hc)

/-- The order of sections at a list of two records and the list with the two
swapped. -/
theorem sections_in_order_example :
    [renamedOnly, partlyStaged].Perm [partlyStaged, renamedOnly]
      ∧ (entries [partlyStaged, renamedOnly]).any nullDeref = false
      ∧ CleanLines (entries [partlyStaged, renamedOnly])
      ∧ GetStatusTextUtil (entries [renamedOnly, partlyStaged]) = some (
          "\nChanges to be committed:\n\trenamed:   old.txt -> new.txt\n\tmodified:  a.txt\n"
            ++ "\nChanges not staged for commit:\n\tmodified:  a.txt\n") :=
  ⟨List.Perm.swap _ _ _, by decide, by decide,
    (sections_in_order [partlyStaged, renamedOnly] [renamedOnly, partlyStaged]
      (List.Perm.swap _ _ _)).2.2 (by decide) (by decide)⟩

/-! ## C6: scenario A -/

/-- C6, as stated, fails at its own witness: for `foo.txt` on branch `main`
the report has two blanks after `new file:`, the blank of the label and the
blank of the template, where the claim has one. -/
theorem C6_counterexample :
    GetStatusText (some "main") (entries [newFile "foo.txt"])
        = some "Branch: main\n\nChanges to be committed:\n\tnew file:  foo.txt\n"
      ∧ GetStatusText (some "main") (entries [newFile "foo.txt"])
        ≠ some "Branch: main\n\nChanges to be committed:\n\tnew file: foo.txt\n" := by
  decide

/-- C6, amended: for every path `p` and branch name `b` the report for the
single record new in the index with the pair `("", p)` is exactly
`Branch: b`, a blank line, `Changes to be committed:`, and the line made of
a tab, `new file:`, two blanks, `p`. -/
theorem C6_new_file_report (p b : String) :
    GetStatusText (some b) (entries [newFile p])
      = some ("Branch: " ++ b ++ "\n" ++ "\nChanges to be committed:\n"
          ++ "\tnew file:  " ++ p ++ "\n") := by
  have hn : (entries [newFile p]).any nullDeref = false := by
    simp only [entries, List.map_cons, List.map_nil, List.any_cons, List.any_nil,
      Bool.or_false, nullDeref, stagedBody_toEntry, unstagedBody_toEntry,
      untrackedBody_toEntry, ignoredBody_toEntry]
    rfl
  have hs : stagedLines (entries [newFile p])
      = [labelledLine "%istatus" Flag.NEW.text (delta none (some p))] := by
    simp only [entries, List.map_cons, List.map_nil, stagedLines, sectionLines,
      List.filterMap_cons, List.filterMap_nil, stagedBody_toEntry]
    rfl
  have hu : unstagedLines (entries [newFile p]) = [] := by
    simp only [entries, List.map_cons, List.map_nil, unstagedLines, sectionLines,
      List.filterMap_cons, List.filterMap_nil, unstagedBody_toEntry]
    rfl
  have ht : untrackedLines (entries [newFile p]) = [] := by
    simp only [entries, List.map_cons, List.map_nil, untrackedLines, sectionLines,
      List.filterMap_cons, List.filterMap_nil, untrackedBody_toEntry]
    rfl
  have hi : ignoredLines (entries [newFile p]) = [] := by
    simp only [entries, List.map_cons, List.map_nil, ignoredLines, sectionLines,
      List.filterMap_cons, List.filterMap_nil, ignoredBody_toEntry]
    rfl
  have hline : (labelledLine "%istatus" Flag.NEW.text (delta none (some p))).run
      ("" ++ "\n" ++ "Changes to be committed:\n")
      = "\nChanges to be committed:\n" ++ ("\t" ++ Flag.NEW.text ++ " " ++ p ++ "\n") := by
    rw [Emit.run_eq_append_text _ _ (by decide)
      (labelledLine_placeholders _ _ _ placeholder_istatus),
      labelledLine_text _ _ _ placeholder_istatus (Flag.text_clean _)
        (by intro o h; cases h)]
    rfl
  unfold GetStatusText
  rw [GetStatusTextUtil_sections, hn, hs, hu, ht, hi]
  simp only [Bool.false_eq_true, if_false, renderSections, renderSection, List.foldl_cons,
    List.foldl_nil, appendLine, hline, GetBranchText]
  simp only [reduceCtorEq, false_and, if_false, Option.some.injEq]
  apply String.ext
  simp [String.data_append, Flag.text]

/-! ## C7: current records -/

theorem isCurrent_status {r : ChangeRecord} (h : r.isCurrent = true) :
    r.toEntry.status = GIT_STATUS_CURRENT := by
  simp only [ChangeRecord.isCurrent, decide_eq_true_eq] at h
  exact (statusMask_eq_current _ _ _).2 h

theorem runPass_skip_filter (title : String) (body : git_status_entry → Step) :
    ∀ (rs : List ChangeRecord) (st : PassState),
      (∀ r : ChangeRecord, r.isCurrent = true → body r.toEntry = .skip) →
      runPass title body (entries rs) st =
        runPass title body (entries (rs.filter (fun r => !r.isCurrent))) st
  | [], _, _ => rfl
  | r :: rest, st, h => by
    by_cases hc : r.isCurrent = true
    · have ih := runPass_skip_filter title body rest st h
      simp only [entries, List.map_cons, List.filter_cons, hc, Bool.not_true,
        Bool.false_eq_true, if_false] at ih ⊢
      simp only [runPass, h r hc]
      exact ih
    · simp only [entries, List.map_cons, List.filter_cons, hc, Bool.not_false, if_true,
        Bool.not_eq_true] at *
      simp only [hc, Bool.not_false, if_true, List.map_cons, runPass]
      cases body r.toEntry with
      | skip => exact runPass_skip_filter title body rest st h
      | null_deref => rfl
      | line e => exact runPass_skip_filter title body rest _ h

theorem stagedBody_current {r : ChangeRecord} (h : r.isCurrent = true) :
    stagedBody r.toEntry = .skip := by
  unfold stagedBody
  rw [if_pos (isCurrent_status h)]

theorem unstagedBody_current {r : ChangeRecord} (h : r.isCurrent = true) :
    unstagedBody r.toEntry = .skip := by
  unfold unstagedBody
  rw [if_pos (Or.inl (isCurrent_status h))]

theorem untrackedBody_current {r : ChangeRecord} (h : r.isCurrent = true) :
    untrackedBody r.toEntry = .skip := by
  unfold untrackedBody
  rw [if_neg (by rw [isCurrent_status h]; decide)]

theorem ignoredBody_current {r : ChangeRecord} (h : r.isCurrent = true) :
    ignoredBody r.toEntry = .skip := by
  unfold ignoredBody
  rw [if_neg (by rw [isCurrent_status h]; decide)]

/-- C7: a record with empty indexFlags, empty workdirFlags and ignored false
is passed over by each of the four loops, and for every record list and
branch the report is the report of the list without its current records. -/
theorem C7_current_records_absent (rs : List ChangeRecord) (branch : Option String) :
    (∀ r : ChangeRecord, r.indexFlags = FlagSet.empty → r.workdirFlags = FlagSet.empty →
        r.ignored = false →
        stagedBody r.toEntry = .skip ∧ unstagedBody r.toEntry = .skip
          ∧ untrackedBody r.toEntry = .skip ∧ ignoredBody r.toEntry = .skip)
      ∧ GetStatusText branch (entries rs)
          = GetStatusText branch (entries (rs.filter (fun r => !r.isCurrent))) := by
  refine ⟨fun r hi hw hg => ?_, ?_⟩
  · have hc : r.isCurrent = true := by
      simp [ChangeRecord.isCurrent, hi, hw, hg]
    exact ⟨stagedBody_current hc, unstagedBody_current hc, untrackedBody_current hc,
      ignoredBody_current hc⟩
  · unfold GetStatusText GetStatusTextUtil fourPasses
    simp only [runPass_skip_filter _ stagedBody rs _ (fun _ h => stagedBody_current h),
      runPass_skip_filter _ unstagedBody rs _ (fun _ h => unstagedBody_current h),
      runPass_skip_filter _ untrackedBody rs _ (fun _ h => untrackedBody_current h),
      runPass_skip_filter _ ignoredBody rs _ (fun _ h => ignoredBody_current h)]

/-- C7 at a list that holds a current record before a partly staged one. -/
theorem C7_current_records_absent_witness :
    currentFile.indexFlags = FlagSet.empty ∧ currentFile.workdirFlags = FlagSet.empty
      ∧ currentFile.ignored = false
      ∧ stagedBody currentFile.toEntry = .skip ∧ unstagedBody currentFile.toEntry = .skip
      ∧ untrackedBody currentFile.toEntry = .skip ∧ ignoredBody currentFile.toEntry = .skip
      ∧ GetStatusText (some "main") (entries [currentFile, partlyStaged])
          = GetStatusText (some "main") (entries [partlyStaged]) :=
  ⟨rfl, rfl, rfl,
    ((C7_current_records_absent [currentFile, partlyStaged] (some "main")).1
      currentFile rfl rfl rfl).1,
    ((C7_current_records_absent [currentFile, partlyStaged] (some "main")).1
      currentFile rfl rfl rfl).2.1,
    ((C7_current_records_absent [currentFile, partlyStaged] (some "main")).1
      currentFile rfl rfl rfl).2.2.1,
    ((C7_current_records_absent [currentFile, partlyStaged] (some "main")).1
      currentFile rfl rfl rfl).2.2.2,
    (C7_current_records_absent [currentFile, partlyStaged] (some "main")).2⟩

/-! ## C8: the unstaged label -/

theorem lastPresent_eq_none {order : List Flag} {f : FlagSet} :
    lastPresent order f = none ↔ ∀ fl ∈ order, f.has fl = false := by
  unfold lastPresent
  rw [List.find?_eq_none]
  simp only [List.mem_reverse, Bool.not_eq_true]

/-- C8, as stated, fails: for the record modified and renamed in the workdir
the first flag present in the order MODIFIED, DELETED, RENAMED, TYPECHANGE is
MODIFIED, but the one unstaged line carries the label of RENAMED. -/
theorem C8_counterexample :
    renamedModifiedWorkdir.indexToWorkdir = some oldNew
      ∧ firstPresent workdirOrder renamedModifiedWorkdir.workdirFlags = some Flag.MODIFIED
      ∧ unstagedLines (entries [renamedModifiedWorkdir])
          = [labelledLine "%wstatus" Flag.RENAMED.text oldNew]
      ∧ unstagedLines (entries [renamedModifiedWorkdir])
          ≠ [labelledLine "%wstatus" Flag.MODIFIED.text oldNew]
      ∧ GetStatusTextUtil (entries [renamedModifiedWorkdir])
          = some ("\nChanges not staged for commit:\n\trenamed:   old.txt -> new.txt\n"
              ++ "\nNo changes added to commit\n") := by
  decide

/-- C8, amended: for a record with indexToWorkdir present the unstaged line
depends on workdirFlags and the pair alone; its label is the label of the
last flag present in the order MODIFIED, DELETED, RENAMED, TYPECHANGE, which
is the first one too when a single one of the four is set; and a record whose
workdirFlags holds none of the four has no line in the Unstaged section,
whatever its indexFlags. -/
theorem C8_unstaged_label (r : ChangeRecord) (d : git_diff_delta)
    (pre post : List ChangeRecord) (hd : r.indexToWorkdir = some d) :
    (∀ fl, lastPresent workdirOrder r.workdirFlags = some fl →
        unstagedLines (entries (pre ++ r :: post)) =
            unstagedLines (entries pre) ++
              labelledLine "%wstatus" fl.text d :: unstagedLines (entries post)
          ∧ ((∀ a ∈ workdirOrder, r.workdirFlags.has a = true → a = fl) →
              firstPresent workdirOrder r.workdirFlags = some fl))
      ∧ ((∀ fl ∈ workdirOrder, r.workdirFlags.has fl = false) →
        unstagedLines (entries (pre ++ r :: post)) =
          unstagedLines (entries pre) ++ unstagedLines (entries post))
      ∧ (∀ r' : ChangeRecord, r'.workdirFlags = r.workdirFlags →
          r'.indexToWorkdir = r.indexToWorkdir →
          unstagedBody r'.toEntry = unstagedBody r.toEntry) := by
  refine ⟨fun fl hfl => ⟨unstagedLines_insert r d fl pre post hfl hd, fun hone => ?_⟩,
    fun hnone => ?_, fun r' hw hi => ?_⟩
  · have hs : (firstPresent workdirOrder r.workdirFlags).isSome = true := by
      rw [← lastPresent_workdir_isSome, hfl]; rfl
    obtain ⟨fl', hfl'⟩ := Option.isSome_iff_exists.1 hs
    have := firstPresent_has hfl'
    rw [hfl', hone fl' this.2 this.1]
  · have hb : (unstagedBody r.toEntry).line? = none := by
      rw [unstagedBody_toEntry, hd, lastPresent_eq_none.2 hnone]
      rfl
    simp only [entries, List.map_append, List.map_cons, unstagedLines]
    exact sectionLines_insert_skip _ _ _ _ hb
  · rw [unstagedBody_toEntry, unstagedBody_toEntry, hw, hi]

/-- C8, amended, at the record modified and renamed in the workdir. -/
theorem C8_unstaged_label_witness :
    renamedModifiedWorkdir.indexToWorkdir = some oldNew
      ∧ lastPresent workdirOrder renamedModifiedWorkdir.workdirFlags = some Flag.RENAMED
      ∧ unstagedLines (entries ([] ++ renamedModifiedWorkdir :: [])) =
          unstagedLines (entries []) ++
            labelledLine "%wstatus" Flag.RENAMED.text oldNew :: unstagedLines (entries []) :=
  ⟨rfl, by decide,
    ((C8_unstaged_label renamedModifiedWorkdir oldNew [] [] rfl).1 Flag.RENAMED
      (by decide)).1⟩

/-! ## The Untracked section -/

theorem pathLine_run (d : git_diff_delta) (p buf : String) (hp : d.old_file.path = some p)
    (hb : Clean buf) : (pathLine d).run buf = buf ++ "\t" ++ p ++ "\n" := by
  rw [Emit.run_eq_append_text _ buf hb (pathLine_placeholders d), pathLine_text d p hp]
  simp [String.append_assoc]

theorem sectionLines_entries_line (body : git_status_entry → Step) (r : ChangeRecord)
    (pre post : List ChangeRecord) (e : Emit) (h : body r.toEntry = .line e) :
    sectionLines body (entries (pre ++ r :: post)) =
      sectionLines body (entries pre) ++ e :: sectionLines body (entries post) := by
  simp only [entries, List.map_append, List.map_cons]
  exact sectionLines_insert_line _ _ _ _ _ h

theorem sectionLines_entries_skip (body : git_status_entry → Step) (r : ChangeRecord)
    (pre post : List ChangeRecord) (h : body r.toEntry = .skip) :
    sectionLines body (entries (pre ++ r :: post)) =
      sectionLines body (entries pre) ++ sectionLines body (entries post) := by
  simp only [entries, List.map_append, List.map_cons]
  exact sectionLines_insert_skip _ _ _ _ (by rw [h]; rfl)

/-- The third loop selects a record exactly when its only signal is
workdir-NEW (workdirFlags = {NEW}, indexFlags empty, ignored false). With
its indexToWorkdir pair present, such a record has in any record list
exactly one line in the Untracked section, at its place, and any other
record has none. The line is a tab, the old path of the pair and a newline,
with no label, when appended to a buffer without `%`. -/
theorem untracked_selection (r : ChangeRecord) (pre post : List ChangeRecord) :
    (untrackedBody r.toEntry ≠ .skip ↔
        (r.indexFlags = FlagSet.empty ∧ r.workdirFlags = FlagSet.onlyNew ∧ r.ignored = false))
      ∧ (∀ d, r.indexToWorkdir = some d →
          (r.indexFlags = FlagSet.empty ∧ r.workdirFlags = FlagSet.onlyNew
              ∧ r.ignored = false) →
          untrackedLines (entries (pre ++ r :: post)) =
            untrackedLines (entries pre) ++ pathLine d :: untrackedLines (entries post))
      ∧ (¬ (r.indexFlags = FlagSet.empty ∧ r.workdirFlags = FlagSet.onlyNew
              ∧ r.ignored = false) →
          untrackedLines (entries (pre ++ r :: post)) =
            untrackedLines (entries pre) ++ untrackedLines (entries post))
      ∧ (∀ d p buf, d.old_file.path = some p → Clean buf →
          (pathLine d).run buf = buf ++ "\t" ++ p ++ "\n") := by
  have hu : r.isUntracked = true ↔
      (r.indexFlags = FlagSet.empty ∧ r.workdirFlags = FlagSet.onlyNew ∧ r.ignored = false) := by
    simp [ChangeRecord.isUntracked]
  refine ⟨?_, fun d hd h => ?_, fun h => ?_, fun d p buf hp hb => pathLine_run d p buf hp hb⟩
  · rw [← hu, untrackedBody_toEntry]
    by_cases hc : r.isUntracked = true
    · simp only [hc, if_true, iff_true]
      cases r.indexToWorkdir <;> simp
    · simp [hc]
  · apply sectionLines_entries_line
    rw [untrackedBody_toEntry, if_pos (hu.2 h), hd]
  · apply sectionLines_entries_skip
    rw [untrackedBody_toEntry, if_neg (fun hc => h (hu.1 hc))]

set_option maxRecDepth 100000 in
/-- The Untracked section at an untracked file between two other records. -/
theorem untracked_selection_example :
    untrackedFile.indexToWorkdir = some (delta (some "u.txt") (some "u.txt"))
      ∧ (untrackedFile.indexFlags = FlagSet.empty ∧ untrackedFile.workdirFlags = FlagSet.onlyNew
          ∧ untrackedFile.ignored = false)
      ∧ untrackedLines (entries ([partlyStaged] ++ untrackedFile :: [ignoredFile])) =
          untrackedLines (entries [partlyStaged]) ++
            pathLine (delta (some "u.txt") (some "u.txt")) :: untrackedLines (entries [ignoredFile])
      ∧ GetStatusTextUtil (entries ([partlyStaged] ++ untrackedFile :: [ignoredFile]))
          = some ("\nChanges to be committed:\n\tmodified:  a.txt\n"
              ++ "\nChanges not staged for commit:\n\tmodified:  a.txt\n"
              ++ "\nUntracked files:\n\tu.txt\n" ++ "\nIgnored files:\n\ti.txt\n") :=
  ⟨rfl, ⟨rfl, rfl, rfl⟩,
    (untracked_selection untrackedFile [partlyStaged] [ignoredFile]).2.1 _ rfl ⟨rfl, rfl, rfl⟩,
    by decide⟩

/-! ## C10: the Ignored section -/

theorem renderSections_unstaged_only (e : Emit) :
    renderSections [] [e] [] [] = e.run ("" ++ "\n" ++ "Changes not staged for commit:\n") := rfl

theorem GetStatusText_eq_map (branch : Option String) (status : List git_status_entry) :
    GetStatusText branch status
      = (GetStatusTextUtil status).map (fun statusText => GetBranchText branch ++ statusText) := by
  unfold GetStatusText
  cases GetStatusTextUtil status <;> rfl

theorem sectionLines_single (body : git_status_entry → Step) (s : git_status_entry) :
    sectionLines body [s] = (body s).line?.toList := by
  simp only [sectionLines, List.filterMap_cons, List.filterMap_nil]
  cases (body s).line? <;> rfl

set_option maxRecDepth 100000 in
/-- C12, as stated, fails at its own witness: for `bar.txt` and no branch the
report has the line `modified:  bar.txt` with two blanks, and the text
`modified: bar.txt` occurs nowhere in it. -/
theorem C12_counterexample :
    GetStatusText none (entries [modifiedFile "bar.txt"])
        = some ("Branch: No Branch info\n" ++ "\nChanges not staged for commit:\n"
            ++ "\tmodified:  bar.txt\n" ++ "\nNo changes added to commit\n")
      ∧ ¬ ("modified: bar.txt".data <:+:
            ("Branch: No Branch info\n" ++ "\nChanges not staged for commit:\n"
              ++ "\tmodified:  bar.txt\n" ++ "\nNo changes added to commit\n").data) := by
  decide

/-- C12, amended: for every path `p` the report for the single record
modified in the workdir with the pair `(p, p)` and no branch is exactly
`Branch: No Branch info`, a blank line, the header
`Changes not staged for commit:`, the line made of a tab, `modified:`, two
blanks and `p`, a blank line and the advisory line
`No changes added to commit`. -/
theorem C12_modified_report (p : String) :
    GetStatusText none (entries [modifiedFile p])
      = some ("Branch: No Branch info\n" ++ "\nChanges not staged for commit:\n"
          ++ "\tmodified:  " ++ p ++ "\n" ++ "\nNo changes added to commit\n") := by
  have hn : (entries [modifiedFile p]).any nullDeref = false := by
    simp only [entries, List.map_cons, List.map_nil, List.any_cons, List.any_nil,
      Bool.or_false, nullDeref, stagedBody_toEntry, unstagedBody_toEntry,
      untrackedBody_toEntry, ignoredBody_toEntry]
    rfl
  have hs : stagedLines (entries [modifiedFile p]) = [] := by
    rw [show entries [modifiedFile p] = [(modifiedFile p).toEntry] from rfl, stagedLines,
      sectionLines_single, stagedBody_toEntry]
    rfl
  have hu : unstagedLines (entries [modifiedFile p])
      = [labelledLine "%wstatus" Flag.MODIFIED.text (delta (some p) (some p))] := by
    rw [show entries [modifiedFile p] = [(modifiedFile p).toEntry] from rfl, unstagedLines,
      sectionLines_single, unstagedBody_toEntry]
    rfl
  have ht : untrackedLines (entries [modifiedFile p]) = [] := by
    rw [show entries [modifiedFile p] = [(modifiedFile p).toEntry] from rfl, untrackedLines,
      sectionLines_single, untrackedBody_toEntry]
    rfl
  have hi : ignoredLines (entries [modifiedFile p]) = [] := by
    rw [show entries [modifiedFile p] = [(modifiedFile p).toEntry] from rfl, ignoredLines,
      sectionLines_single, ignoredBody_toEntry]
    rfl
  have hline : (labelledLine "%wstatus" Flag.MODIFIED.text (delta (some p) (some p))).run
      ("" ++ "\n" ++ "Changes not staged for commit:\n")
      = "\nChanges not staged for commit:\n" ++ ("\t" ++ Flag.MODIFIED.text ++ " " ++ p ++ "\n") := by
    rw [Emit.run_eq_append_text _ _ (by decide)
      (labelledLine_placeholders _ _ _ placeholder_wstatus),
      labelledLine_text _ _ _ placeholder_wstatus (Flag.text_clean _)
        (by intro o _ h; simp [isRename, delta] at h)]
    simp [labelledText, delta]
  have hadv : ([] : List Emit) = [] ∧
      [labelledLine "%wstatus" Flag.MODIFIED.text (delta (some p) (some p))] ≠ [] :=
    ⟨rfl, by simp⟩
  rw [GetStatusText_eq_map, GetStatusTextUtil_sections, hn, hs, hu, ht, hi,
    renderSections_unstaged_only, hline, if_neg (by decide), if_pos hadv, Option.map_some']
  simp only [GetBranchText, Option.some.injEq]
  apply String.ext
  simp [String.data_append, Flag.text]

/-! ## C13: the empty record list -/

/-- C13: for the empty record list and every branch the build returns, and
the report is the branch line alone: `Branch: ` and the branch name, or
`Branch: No Branch info` when there is no branch, with no section header and
no advisory line. -/
theorem C13_empty_list (b : String) :
    GetStatusTextUtil [] = some ""
      ∧ GetStatusText (some b) [] = some ("Branch: " ++ b ++ "\n")
      ∧ GetStatusText (some "main") [] = some "Branch: main\n"
      ∧ GetStatusText none [] = some "Branch: No Branch info\n" := by
  refine ⟨rfl, ?_, rfl, rfl⟩
  simp [GetStatusText, GetStatusTextUtil, fourPasses, runPass, GetBranchText]

/-! ## C14: the section headers -/

theorem renderSection_headed (title : String) :
    ∀ (lines : List Emit) (buf : String),
      (renderSection title lines ⟨buf, true⟩).statusText = lines.foldl (fun b e => e.run b) buf
  | [], _ => rfl
  | e :: rest, buf => by
    have ih := renderSection_headed title rest (e.run buf)
    simp only [renderSection, List.foldl_cons, appendLine, if_true] at ih ⊢
    exact ih

theorem renderSection_eq_appendSection (title : String) (lines : List Emit) (buf : String) :
    (renderSection title lines ⟨buf, false⟩).statusText = appendSection title lines buf := by
  cases lines with
  | nil => rfl
  | cons e rest =>
    have ih := renderSection_headed title rest (e.run (buf ++ "\n" ++ title))
    simp only [renderSection, List.foldl_cons, appendLine, Bool.false_eq_true, if_false,
      appendSection] at ih ⊢
    exact ih

theorem renderSections_eq_appendSection (a b c d : List Emit) :
    renderSections a b c d =
      appendSection "Ignored files:\n" d
        (appendSection "Untracked files:\n" c
          (appendSection "Changes not staged for commit:\n" b
            (appendSection "Changes to be committed:\n" a ""))) := by
  unfold renderSections
  simp only [renderSection_eq_appendSection]

/-- C14: the report is built by appending the four sections in turn, and
appending a section leaves the buffer as it is when no record yields a line
for the section, and else appends the blank line and the header once, right
before the first line of the section, and the other lines after it with no
header. For lines with all their values, free of `%`, the text of a section
is empty, or the blank line, the header and the texts of its lines. -/
theorem C14_headers (status : List git_status_entry) :
    (GetStatusTextUtil status =
        if status.any nullDeref then none
        else some (
          appendSection "Ignored files:\n" (ignoredLines status)
            (appendSection "Untracked files:\n" (untrackedLines status)
              (appendSection "Changes not staged for commit:\n" (unstagedLines status)
                (appendSection "Changes to be committed:\n" (stagedLines status) "")))
          ++ (if stagedLines status = [] ∧ unstagedLines status ≠ [] then advisory else "")))
      ∧ (∀ title buf, appendSection title [] buf = buf)
      ∧ (∀ title e rest buf, appendSection title (e :: rest) buf =
          rest.foldl (fun b e' => e'.run b) (e.run (buf ++ "\n" ++ title)))
      ∧ (status.any nullDeref = false → CleanLines status →
          GetStatusTextUtil status = some (
            sectionText "Changes to be committed:\n" (stagedLines status)
              ++ sectionText "Changes not staged for commit:\n" (unstagedLines status)
              ++ sectionText "Untracked files:\n" (untrackedLines status)
              ++ sectionText "Ignored files:\n" (ignoredLines status)
              ++ (if (stagedLines status).isEmpty && !(unstagedLines status).isEmpty then
                    advisory else "")))
      ∧ (∀ title, sectionText title [] = "")
      ∧ (∀ title e rest, sectionText title (e :: rest) =
          "\n" ++ title ++ (e.text ++ String.join (rest.map Emit.text))) := by
  refine ⟨?_, fun _ _ => rfl, fun _ _ _ _ => rfl, fun hn hc => GetStatusTextUtil_clean status hn hc,
    fun _ => rfl, fun title e rest => ?_⟩
  · rw [GetStatusTextUtil_sections, renderSections_eq_appendSection]
    rfl
  · simp only [sectionText, List.isEmpty_cons, Bool.false_eq_true, if_false, List.map_cons,
      join_cons]

/-- C14 at a list with a staged, an untracked and an ignored record. -/
theorem C14_headers_witness :
    (entries [untrackedFile, renamedOnly, ignoredFile]).any nullDeref = false
      ∧ CleanLines (entries [untrackedFile, renamedOnly, ignoredFile])
      ∧ GetStatusTextUtil (entries [untrackedFile, renamedOnly, ignoredFile]) = some (
          "\nChanges to be committed:\n\trenamed:   old.txt -> new.txt\n"
            ++ "\nUntracked files:\n\tu.txt\n" ++ "\nIgnored files:\n\ti.txt\n") :=
  ⟨by decide, by decide,
    (C14_headers (entries [untrackedFile, renamedOnly, ignoredFile])).2.2.2.1
      (by decide) (by decide)⟩

/-! ## C17: exclusive sections -/

theorem stagedBody_skip_of_istatus {s : git_status_entry} (h : istatus s.status = none) :
    stagedBody s = .skip := by
  unfold stagedBody
  split
  · rfl
  · rw [h]

theorem unstagedBody_skip_of_wstatus {s : git_status_entry} (h : wstatus s.status = none) :
    unstagedBody s = .skip := by
  unfold unstagedBody
  split
  · rfl
  · rw [h]

theorem untrackedBody_line_status {s : git_status_entry}
    (h : (untrackedBody s).line?.isSome = true) : s.status = GIT_STATUS_WT_NEW := by
  unfold untrackedBody at h
  by_contra hs
  rw [if_neg hs] at h
  exact absurd h (by decide)

theorem ignoredBody_line_status {s : git_status_entry}
    (h : (ignoredBody s).line?.isSome = true) : s.status = GIT_STATUS_IGNORED := by
  unfold ignoredBody at h
  by_contra hs
  rw [if_neg hs] at h
  exact absurd h (by decide)

theorem untracked_exclusive {s : git_status_entry}
    (h : (untrackedBody s).line?.isSome = true) :
    stagedBody s = .skip ∧ unstagedBody s = .skip ∧ ignoredBody s = .skip := by
  have hs := untrackedBody_line_status h
  refine ⟨stagedBody_skip_of_istatus (by rw [hs]; decide),
    unstagedBody_skip_of_wstatus (by rw [hs]; decide), ?_⟩
  unfold ignoredBody
  rw [if_neg (by rw [hs]; decide)]

theorem ignored_exclusive {s : git_status_entry}
    (h : (ignoredBody s).line?.isSome = true) :
    stagedBody s = .skip ∧ unstagedBody s = .skip ∧ untrackedBody s = .skip := by
  have hs := ignoredBody_line_status h
  refine ⟨stagedBody_skip_of_istatus (by rw [hs]; decide),
    unstagedBody_skip_of_wstatus (by rw [hs]; decide), ?_⟩
  unfold untrackedBody
  rw [if_neg (by rw [hs]; decide)]

theorem toList_length_le_one {α : Type} (o : Option α) : o.toList.length ≤ 1 := by
  cases o <;> simp

theorem toList_length_eq_one {α : Type} {o : Option α} (h : o.isSome = true) :
    o.toList.length = 1 := by
  cases o with
  | none => simp at h
  | some _ => rfl

theorem toList_length_eq_zero {α : Type} {o : Option α} (h : ¬ o.isSome = true) :
    o.toList.length = 0 := by
  cases o
  · rfl
  · exact absurd rfl h

theorem sections_length (status : List git_status_entry) :
    (stagedLines status).length + (unstagedLines status).length
        + (untrackedLines status).length + (ignoredLines status).length
      = (status.map (fun s => (linesOf s).length)).sum := by
  induction status with
  | nil => rfl
  | cons s rest ih =>
    simp only [stagedLines, unstagedLines, untrackedLines, ignoredLines, sectionLines,
      List.map_cons, List.sum_cons, linesOf, List.length_append] at ih ⊢
    rw [← ih]
    cases h1 : (stagedBody s).line? <;> cases h2 : (unstagedBody s).line? <;>
      cases h3 : (untrackedBody s).line? <;> cases h4 : (ignoredBody s).line? <;>
      simp [List.filterMap_cons, h1, h2, h3, h4] <;> omega

/-- C17: an entry with a line in the Untracked section, or in the Ignored
section, has no line in any other section; every entry has at most two lines
in the report, and two only as one Staged and one Unstaged line; and the
number of lines of the four sections of a list is the sum over its entries. -/
theorem C17_exclusive_sections (s : git_status_entry) (status : List git_status_entry) :
    ((untrackedBody s).line?.isSome = true →
        (stagedBody s).line? = none ∧ (unstagedBody s).line? = none
          ∧ (ignoredBody s).line? = none)
      ∧ ((ignoredBody s).line?.isSome = true →
        (stagedBody s).line? = none ∧ (unstagedBody s).line? = none
          ∧ (untrackedBody s).line? = none)
      ∧ (linesOf s).length ≤ 2
      ∧ ((linesOf s).length = 2 →
          (stagedBody s).line?.isSome = true ∧ (unstagedBody s).line?.isSome = true
            ∧ (untrackedBody s).line? = none ∧ (ignoredBody s).line? = none)
      ∧ (stagedLines status).length + (unstagedLines status).length
          + (untrackedLines status).length + (ignoredLines status).length
        = (status.map (fun s => (linesOf s).length)).sum := by
  have hu : (untrackedBody s).line?.isSome = true →
      (stagedBody s).line? = none ∧ (unstagedBody s).line? = none
        ∧ (ignoredBody s).line? = none := by
    intro h
    obtain ⟨h1, h2, h3⟩ := untracked_exclusive h
    rw [h1, h2, h3]
    exact ⟨rfl, rfl, rfl⟩
  have hi : (ignoredBody s).line?.isSome = true →
      (stagedBody s).line? = none ∧ (unstagedBody s).line? = none
        ∧ (untrackedBody s).line? = none := by
    intro h
    obtain ⟨h1, h2, h3⟩ := ignored_exclusive h
    rw [h1, h2, h3]
    exact ⟨rfl, rfl, rfl⟩
  have hlen : (linesOf s).length = (stagedBody s).line?.toList.length
      + (unstagedBody s).line?.toList.length + (untrackedBody s).line?.toList.length
      + (ignoredBody s).line?.toList.length := by
    simp only [linesOf, List.length_append]
  have b1 := toList_length_le_one (stagedBody s).line?
  have b2 := toList_length_le_one (unstagedBody s).line?
  have b3 := toList_length_le_one (untrackedBody s).line?
  have b4 := toList_length_le_one (ignoredBody s).line?
  have key : (untrackedBody s).line?.isSome = true ∨ (ignoredBody s).line?.isSome = true →
      (linesOf s).length = 1 := by
    rintro (h | h)
    · obtain ⟨h1, h2, h3⟩ := hu h
      rw [hlen, h1, h2, h3, toList_length_eq_one h]
      rfl
    · obtain ⟨h1, h2, h3⟩ := hi h
      rw [hlen, h1, h2, h3, toList_length_eq_one h]
      rfl
  refine ⟨hu, hi, ?_, ?_, sections_length status⟩
  · by_cases h : (untrackedBody s).line?.isSome = true ∨ (ignoredBody s).line?.isSome = true
    · rw [key h]; omega
    · rw [not_or] at h
      rw [hlen, toList_length_eq_zero h.1, toList_length_eq_zero h.2]
      omega
  · intro h2
    by_cases h : (untrackedBody s).line?.isSome = true ∨ (ignoredBody s).line?.isSome = true
    · rw [key h] at h2; omega
    · rw [not_or] at h
      have z3 := toList_length_eq_zero h.1
      have z4 := toList_length_eq_zero h.2
      rw [hlen, z3, z4] at h2
      refine ⟨?_, ?_, ?_, ?_⟩
      · by_contra hc
        rw [toList_length_eq_zero hc] at h2; omega
      · by_contra hc
        rw [toList_length_eq_zero hc] at h2; omega
      · cases hx : (untrackedBody s).line? with
        | none => rfl
        | some _ => rw [hx] at h; exact absurd rfl h.1
      · cases hx : (ignoredBody s).line? with
        | none => rfl
        | some _ => rw [hx] at h; exact absurd rfl h.2

/-- C17 at an untracked file, and at a file staged and modified again. -/
theorem C17_exclusive_sections_witness :
    (untrackedBody untrackedFile.toEntry).line?.isSome = true
      ∧ ((stagedBody untrackedFile.toEntry).line? = none
          ∧ (unstagedBody untrackedFile.toEntry).line? = none
          ∧ (ignoredBody untrackedFile.toEntry).line? = none)
      ∧ (linesOf partlyStaged.toEntry).length = 2
      ∧ ((stagedBody partlyStaged.toEntry).line?.isSome = true
          ∧ (unstagedBody partlyStaged.toEntry).line?.isSome = true
          ∧ (untrackedBody partlyStaged.toEntry).line? = none
          ∧ (ignoredBody partlyStaged.toEntry).line? = none) :=
  ⟨by decide, (C17_exclusive_sections untrackedFile.toEntry []).1 (by decide), by decide,
    (C17_exclusive_sections partlyStaged.toEntry []).2.2.2.1 (by decide)⟩

/-! ## C16: no absent pair and no absent path is read -/

theorem labelledLine_complete (ph l : String) (d : git_diff_delta)
    (h : (d.old_file.path.isSome || d.new_file.path.isSome) = true) :
    (labelledLine ph l d).Complete := by
  rcases d with ⟨⟨o⟩, ⟨n⟩⟩
  intro x hx
  cases o with
  | none =>
    cases n with
    | none => simp at h
    | some n =>
      simp [labelledLine, isRename] at hx
      rcases hx with rfl | rfl <;> rfl
  | some o =>
    cases n with
    | none =>
      simp [labelledLine, isRename] at hx
      rcases hx with rfl | rfl <;> rfl
    | some n =>
      by_cases hon : o = n
      · subst hon
        simp [labelledLine, isRename] at hx
        rcases hx with rfl | rfl <;> rfl
      · simp [labelledLine, isRename, hon] at hx
        rcases hx with rfl | rfl | rfl <;> rfl

theorem pathLine_complete (d : git_diff_delta) (h : d.old_file.path.isSome = true) :
    (pathLine d).Complete := by
  intro x hx
  simp only [pathLine, List.mem_singleton] at hx
  subst hx
  exact h

theorem precondition_bodies {r : ChangeRecord} (h : r.Precondition) :
    (stagedBody r.toEntry ≠ .null_deref ∧ ∀ e, stagedBody r.toEntry = .line e → e.Complete)
      ∧ (untrackedBody r.toEntry ≠ .null_deref
          ∧ ∀ e, untrackedBody r.toEntry = .line e → e.Complete)
      ∧ (ignoredBody r.toEntry ≠ .null_deref
          ∧ ∀ e, ignoredBody r.toEntry = .line e → e.Complete) := by
  obtain ⟨h1, h2⟩ := h
  refine ⟨?_, ?_, ?_⟩
  · rw [stagedBody_toEntry]
    cases hfl : lastPresent indexOrder r.indexFlags with
    | none => exact ⟨by simp, by intro e he; cases he⟩
    | some fl =>
      have hne := (lastPresent_index_isSome r.indexFlags).1 (by rw [hfl]; rfl)
      have hp := h1 hne
      cases hd : r.headToIndex with
      | none => rw [hd] at hp; exact absurd hp (by decide)
      | some d =>
        rw [hd] at hp
        refine ⟨by simp, ?_⟩
        intro e he
        cases he
        exact labelledLine_complete _ _ _ hp
  · rw [untrackedBody_toEntry]
    by_cases hu : r.isUntracked = true
    · have hp := h2 (Or.inl hu)
      rw [if_pos hu]
      cases hd : r.indexToWorkdir with
      | none => rw [hd] at hp; exact absurd hp (by decide)
      | some d =>
        rw [hd] at hp
        refine ⟨by simp, ?_⟩
        intro e he
        cases he
        exact pathLine_complete _ hp
    · rw [if_neg hu]
      exact ⟨by simp, by intro e he; cases he⟩
  · rw [ignoredBody_toEntry]
    by_cases hu : r.isIgnoredOnly = true
    · have hp := h2 (Or.inr hu)
      rw [if_pos hu]
      cases hd : r.indexToWorkdir with
      | none => rw [hd] at hp; exact absurd hp (by decide)
      | some d =>
        rw [hd] at hp
        refine ⟨by simp, ?_⟩
        intro e he
        cases he
        exact pathLine_complete _ hp
    · rw [if_neg hu]
      exact ⟨by simp, by intro e he; cases he⟩

theorem mem_sectionLines_entries {body : git_status_entry → Step} {rs : List ChangeRecord}
    {e : Emit} (h : e ∈ sectionLines body (entries rs)) :
    ∃ r ∈ rs, body r.toEntry = .line e := by
  obtain ⟨s, hs, hb⟩ := mem_sectionLines h
  simp only [entries, List.mem_map] at hs
  obtain ⟨r, hr, rfl⟩ := hs
  exact ⟨r, hr, hb⟩

theorem precondition_no_nullDeref (rs : List ChangeRecord) (hpre : ∀ r ∈ rs, r.Precondition) :
    (entries rs).any nullDeref = false := by
  rw [List.any_eq_false]
  intro s hs
  simp only [entries, List.mem_map] at hs
  obtain ⟨r, hr, rfl⟩ := hs
  obtain ⟨⟨h1, _⟩, ⟨h3, _⟩, ⟨h4, _⟩⟩ := precondition_bodies (hpre r hr)
  simp [nullDeref, h1, h3, h4, unstagedBody_ne_null_deref]

/-- C16, as stated, fails: the record modified in the workdir whose
indexToWorkdir pair is present with no path meets the precondition, and the
second loop reads both absent paths and hands `NULL` to `ReplaceFirst`: the
substitution of `%file` in its line has no value. -/
theorem C16_counterexample :
    modifiedNoPaths.Precondition
      ∧ unstagedLines (entries [modifiedNoPaths])
          = [{ template := "\t%wstatus %file\n",
               replacements := [("%wstatus", some "modified: "), ("%file", none)] }]
      ∧ ¬ (∀ e ∈ unstagedLines (entries [modifiedNoPaths]), e.Complete) := by
  decide

/-- C16, amended: when every record with an index-side flag has headToIndex
present with at least one path, and every record whose status is exactly
workdir-NEW or exactly ignored has indexToWorkdir present with its old path,
no loop dereferences an absent delta pair, `GetStatusTextUtil` returns a
report, and every substitution of the first, the third and the fourth loop
has a value. The second loop never dereferences an absent pair, with no
precondition; its substitutions have a value when, in addition, every record
with one of the flags MODIFIED, DELETED, RENAMED, TYPECHANGE on the workdir
side and indexToWorkdir present has at least one path in it. -/
theorem C16_total (rs : List ChangeRecord) (hpre : ∀ r ∈ rs, r.Precondition) :
    (entries rs).any nullDeref = false
      ∧ (∃ statusText, GetStatusTextUtil (entries rs) = some statusText)
      ∧ (∀ e ∈ stagedLines (entries rs), e.Complete)
      ∧ (∀ e ∈ untrackedLines (entries rs), e.Complete)
      ∧ (∀ e ∈ ignoredLines (entries rs), e.Complete)
      ∧ (∀ s : git_status_entry, unstagedBody s ≠ .null_deref)
      ∧ ((∀ r ∈ rs, (∃ fl ∈ workdirOrder, r.workdirFlags.has fl = true) →
            r.indexToWorkdir ≠ none → hasPath r.indexToWorkdir = true) →
          ∀ e ∈ unstagedLines (entries rs), e.Complete) := by
  have hn := precondition_no_nullDeref rs hpre
  refine ⟨hn, ?_, ?_, ?_, ?_, unstagedBody_ne_null_deref, ?_⟩
  · rw [GetStatusTextUtil_sections, hn]
    exact ⟨_, rfl⟩
  · intro e he
    obtain ⟨r, hr, hb⟩ := mem_sectionLines_entries he
    exact (precondition_bodies (hpre r hr)).1.2 e hb
  · intro e he
    obtain ⟨r, hr, hb⟩ := mem_sectionLines_entries he
    exact (precondition_bodies (hpre r hr)).2.1.2 e hb
  · intro e he
    obtain ⟨r, hr, hb⟩ := mem_sectionLines_entries he
    exact (precondition_bodies (hpre r hr)).2.2.2 e hb
  · intro hw e he
    obtain ⟨r, hr, hb⟩ := mem_sectionLines_entries he
    rw [unstagedBody_toEntry] at hb
    cases hd : r.indexToWorkdir with
    | none => rw [hd] at hb; cases hb
    | some d =>
      rw [hd] at hb
      cases hfl : lastPresent workdirOrder r.workdirFlags with
      | none => rw [hfl] at hb; cases hb
      | some fl =>
        rw [hfl] at hb
        cases hb
        have hh := lastPresent_has hfl
        have hp := hw r hr ⟨fl, hh.2, hh.1⟩ (by rw [hd]; simp)
        rw [hd] at hp
        exact labelledLine_complete _ _ _ hp

/-- C16, amended, at a list of a staged, an untracked and an ignored record. -/
theorem C16_total_witness :
    (∀ r ∈ [partlyStaged, untrackedFile, ignoredFile], r.Precondition)
      ∧ (entries [partlyStaged, untrackedFile, ignoredFile]).any nullDeref = false
      ∧ (∃ statusText,
          GetStatusTextUtil (entries [partlyStaged, untrackedFile, ignoredFile])
            = some statusText) :=
  ⟨by decide,
    (C16_total [partlyStaged, untrackedFile, ignoredFile] (by decide)).1,
    (C16_total [partlyStaged, untrackedFile, ignoredFile] (by decide)).2.1⟩

/-! ## C11: malformed records -/

set_option maxRecDepth 100000 in
/-- C15 at the failing input: for a new file named `%file` followed by a new
file `b.txt`, the substitution of `%file` for the second record lands in the
line of the first one. The in-place construction returns the line of the
first record with the path `b.txt` and the line of the second with `%file`
left in it; the append-only construction has each path in its own line. -/
theorem C15_in_place_diverges :
    (entries [newFile "%file", newFile "b.txt"]).any nullDeref = false
      ∧ GetStatusTextUtil (entries [newFile "%file", newFile "b.txt"])
          = some "\nChanges to be committed:\n\tnew file:  b.txt\n\tnew file:  %file\n"
      ∧ appendOnlyReport (entries [newFile "%file", newFile "b.txt"])
          = "\nChanges to be committed:\n\tnew file:  %file\n\tnew file:  b.txt\n"
      ∧ GetStatusTextUtil (entries [newFile "%file", newFile "b.txt"])
          ≠ some (appendOnlyReport (entries [newFile "%file", newFile "b.txt"])) := by
  decide

/-! ## C5: the order of the lines in the report text -/

set_option maxRecDepth 100000 in
/-- C5 at the failing inputs. For the new files `%file` and `c.txt`, in this
order, the Staged section is appended with the line of `%file` first, but the
substitution of `%file` for the second record lands in the first line: the
report shows `c.txt` before `%file`, against the input order. For the new
file `%file` followed by the file `b.txt` modified in the workdir, the path
of the unstaged record is shown in the Staged section and the Unstaged
section shows `%file`. The append-only construction has every path in the
line of its own record. -/
theorem C5_order_broken :
    (entries [newFile "%file", newFile "c.txt"]).any nullDeref = false
      ∧ stagedLines (entries [newFile "%file", newFile "c.txt"])
          = [labelledLine "%istatus" Flag.NEW.text (delta none (some "%file")),
             labelledLine "%istatus" Flag.NEW.text (delta none (some "c.txt"))]
      ∧ GetStatusTextUtil (entries [newFile "%file", newFile "c.txt"])
          = some "\nChanges to be committed:\n\tnew file:  c.txt\n\tnew file:  %file\n"
      ∧ appendOnlyReport (entries [newFile "%file", newFile "c.txt"])
          = "\nChanges to be committed:\n\tnew file:  %file\n\tnew file:  c.txt\n"
      ∧ stagedLines (entries [newFile "%file", modifiedFile "b.txt"])
          = [labelledLine "%istatus" Flag.NEW.text (delta none (some "%file"))]
      ∧ unstagedLines (entries [newFile "%file", modifiedFile "b.txt"])
          = [labelledLine "%wstatus" Flag.MODIFIED.text (delta (some "b.txt") (some "b.txt"))]
      ∧ GetStatusTextUtil (entries [newFile "%file", modifiedFile "b.txt"])
          = some ("\nChanges to be committed:\n\tnew file:  b.txt\n"
              ++ "\nChanges not staged for commit:\n\tmodified:  %file\n")
      ∧ appendOnlyReport (entries [newFile "%file", modifiedFile "b.txt"])
          = "\nChanges to be committed:\n\tnew file:  %file\n"
              ++ "\nChanges not staged for commit:\n\tmodified:  b.txt\n" := by
  decide

/-! ## C9: the text of an untracked line -/

set_option maxRecDepth 100000 in
/-- C9 at the failing input. For the untracked files `a%fileb` and `u.txt`,
both selected by the third loop and in this order, the substitution of
`%file` for the second record lands in the path of the first line: the first
line reads `au.txtb` and the second keeps `%file`, so neither line is the
path of its record. The append-only construction has the lines `a%fileb` and
`u.txt`. For the untracked files `%file` and `u.txt` the two paths come out
swapped. -/
theorem C9_untracked_line_captured :
    (entries [untrackedNamed "a%fileb", untrackedNamed "u.txt"]).any nullDeref = false
      ∧ untrackedLines (entries [untrackedNamed "a%fileb", untrackedNamed "u.txt"])
          = [pathLine (delta (some "a%fileb") (some "a%fileb")),
             pathLine (delta (some "u.txt") (some "u.txt"))]
      ∧ GetStatusTextUtil (entries [untrackedNamed "a%fileb", untrackedNamed "u.txt"])
          = some "\nUntracked files:\n\tau.txtb\n\t%file\n"
      ∧ appendOnlyReport (entries [untrackedNamed "a%fileb", untrackedNamed "u.txt"])
          = "\nUntracked files:\n\ta%fileb\n\tu.txt\n"
      ∧ GetStatusTextUtil (entries [untrackedNamed "%file", untrackedNamed "u.txt"])
          = some "\nUntracked files:\n\tu.txt\n\t%file\n" := by
  decide

end TrackGit
